import Mathlib

/-!
# ldif-to-lldap: a shallow embedding of `src/ldif-to-lldap.go`

Go strings are byte sequences, so a string is modelled as a list of bytes.
The process-wide variables of the program are collected in `Globals` and passed
explicitly; a `*Record` argument that the program mutates in place is returned
next to the new globals.  The remote store and the password tool are a
`Gateway`: arbitrary functions of the traffic seen so far.  What depends on the
Unicode tables, on the version of the standard library or on the unspecified
order of map iteration is taken from a `Runtime`.  A run-time panic is the
result `none`.  Console output and the verbosity flag, which only guards
console output, are left out, and so is the settling delay of upsertUser.
-/

set_option autoImplicit false

namespace LdifToLldap

/-! ## Strings -/

/-- A Go string: a sequence of bytes. -/
abbrev Str := List UInt8

/-- The bytes (UTF-8) of a string literal of the source. -/
def lit (s : String) : Str := (String.toUTF8 s).data.toList

/-- What the program uses from the Go runtime and standard library and cannot
be written down without the Unicode tables or the library version. -/
structure Runtime where
  /-- The function strings.Map(unicode.ToLower, s), which strings.ToLower calls
  for a string with a byte outside ASCII. -/
  unicodeLower : Str → Str
  /-- The function json.Marshal on a string. -/
  jsonString : Str → Str
  /-- The function json.Marshal on a slice of strings. -/
  jsonStrings : List Str → Str
  /-- The order in which a range loop yields the entries of an attribute map
  (unspecified in Go). -/
  rangeOrder : List (Str × List Str) → List (Str × List Str)
  /-- A range loop yields every entry once. -/
  rangeOrder_perm : ∀ m, List.Perm (rangeOrder m) m

/-- A runtime for evaluating ASCII examples: quoting adds double quotes only,
range loops follow insertion order. -/
def asciiRuntime : Runtime where
  unicodeLower := fun s => s
  jsonString := fun s => [34] ++ s ++ [34]
  jsonStrings := fun ss =>
    [91] ++ List.flatten (List.intersperse [44] (ss.map (fun s => [34] ++ s ++ [34]))) ++ [93]
  rangeOrder := fun m => m
  rangeOrder_perm := fun m => List.Perm.refl m

def isASCII (s : Str) : Bool := s.all (fun c => c < 128)

def lowerByte (c : UInt8) : UInt8 := if 65 ≤ c ∧ c ≤ 90 then c + 32 else c

/-- The function strings.ToLower: bytewise on ASCII strings, the Unicode
mapping otherwise. -/
def ToLower (rt : Runtime) (s : Str) : Str :=
  if isASCII s then s.map lowerByte else rt.unicodeLower s

def HasPrefix (s pre : Str) : Bool := pre.isPrefixOf s

def TrimPrefix (s pre : Str) : Str := if HasPrefix s pre then s.drop pre.length else s

/-- The function strings.Contains. -/
def Contains : Str → Str → Bool
  | [], sub => sub.isEmpty
  | c :: s, sub => sub.isPrefixOf (c :: s) || Contains s sub

/-- UTF-8 encodings of the code points on which unicode.IsSpace holds. -/
def spaceRunes : List Str :=
  [[9], [10], [11], [12], [13], [32], [0xC2, 0x85], [0xC2, 0xA0], [0xE1, 0x9A, 0x80],
   [0xE2, 0x80, 0x80], [0xE2, 0x80, 0x81], [0xE2, 0x80, 0x82], [0xE2, 0x80, 0x83],
   [0xE2, 0x80, 0x84], [0xE2, 0x80, 0x85], [0xE2, 0x80, 0x86], [0xE2, 0x80, 0x87],
   [0xE2, 0x80, 0x88], [0xE2, 0x80, 0x89], [0xE2, 0x80, 0x8A], [0xE2, 0x80, 0xA8],
   [0xE2, 0x80, 0xA9], [0xE2, 0x80, 0xAF], [0xE2, 0x81, 0x9F], [0xE3, 0x80, 0x80]]

/-- Drops white-space runes from the front, at most `fuel` of them. -/
def trimLeftSpace : Nat → Str → Str
  | 0, s => s
  | fuel + 1, s =>
    match spaceRunes.find? (fun p => p.isPrefixOf s) with
    | some p => trimLeftSpace fuel (s.drop p.length)
    | none => s

/-- Drops white-space runes from the back of a reversed string. -/
def trimRightSpaceRev : Nat → Str → Str
  | 0, s => s
  | fuel + 1, s =>
    match spaceRunes.find? (fun p => p.reverse.isPrefixOf s) with
    | some p => trimRightSpaceRev fuel (s.drop p.length)
    | none => s

/-- The function strings.TrimSpace. -/
def TrimSpace (s : Str) : Str :=
  let t := trimLeftSpace s.length s
  (trimRightSpaceRev t.length t.reverse).reverse

/-- Cuts at the first occurrence of the byte `sep`. -/
def cut (sep : UInt8) : Str → Option (Str × Str)
  | [] => none
  | c :: s =>
    if c = sep then some ([], s)
    else match cut sep s with
      | some (a, b) => some (c :: a, b)
      | none => none

/-- The call strings.SplitN(s, sep, 2) for a one-byte separator. -/
def SplitN2 (s : Str) (sep : UInt8) : List Str :=
  match cut sep s with
  | some (a, b) => [a, b]
  | none => [s]

/-- The call strings.Split(s, sep) for a one-byte separator. -/
def Split (sep : UInt8) : Str → List Str
  | [] => [[]]
  | c :: s =>
    if c = sep then [] :: Split sep s
    else match Split sep s with
      | p :: ps => (c :: p) :: ps
      | [] => [[c]]

/-- The call strings.ReplaceAll(s, old, new) for one-byte old and new. -/
def ReplaceAll (s : Str) (old new : UInt8) : Str :=
  s.map (fun c => if c = old then new else c)

/-- The call regexp.MustCompile("[cls]+").ReplaceAllString(s, repl): every
maximal run of bytes of the class is replaced by `repl`.  The flag tells
whether the previous byte belonged to a run. -/
def replaceRuns (cls : UInt8 → Bool) (repl : Str) : Bool → Str → Str
  | _, [] => []
  | inRun, c :: s =>
    if cls c then
      (if inRun then replaceRuns cls repl true s else repl ++ replaceRuns cls repl true s)
    else c :: replaceRuns cls repl false s

def ReplaceAllString (cls : UInt8 → Bool) (s repl : Str) : Str :=
  replaceRuns cls repl false s

def isLowerAlnum (c : UInt8) : Bool :=
  (97 ≤ c && c ≤ 122) || (48 ≤ c && c ≤ 57)

/-- The class a-z0-9._- of the regular expression in sanitizeID. -/
def isIdByte (c : UInt8) : Bool :=
  isLowerAlnum c || c = 46 || c = 95 || c = 45

/-- The class of the regular expression \s. -/
def isReSpace (c : UInt8) : Bool :=
  c = 9 || c = 10 || c = 12 || c = 13 || c = 32

/-! ### base64.StdEncoding.DecodeString -/

def decodeMap (c : UInt8) : Option Nat :=
  if 65 ≤ c ∧ c ≤ 90 then some (c.toNat - 65)
  else if 97 ≤ c ∧ c ≤ 122 then some (c.toNat - 71)
  else if 48 ≤ c ∧ c ≤ 57 then some (c.toNat + 4)
  else if c = 43 then some 62
  else if c = 47 then some 63
  else none

def isNewline (c : UInt8) : Bool := c = 10 || c = 13

/-- The last step of decodeQuantum: `dlen` sextets become `dlen - 1` bytes. -/
def quantumBytes (dbuf : List Nat) : Str :=
  let v := dbuf.getD 0 0 * 262144 + dbuf.getD 1 0 * 4096 + dbuf.getD 2 0 * 64 + dbuf.getD 3 0
  ([v / 65536 % 256, v / 256 % 256, v % 256].take (dbuf.length - 1)).map UInt8.ofNat

/-- The function decodeQuantum: the sextets read so far, the input left.
Returns the input left, the bytes produced and whether an error was raised. -/
def decodeQuantum : List Nat → Str → Str × Str × Bool
  | dbuf, [] =>
    if dbuf.length = 0 then ([], [], false)
    else if dbuf.length = 4 then ([], quantumBytes dbuf, false)
    else ([], [], true)
  | dbuf, c :: src =>
    if dbuf.length = 4 then (c :: src, quantumBytes dbuf, false)
    else match decodeMap c with
      | some v => decodeQuantum (dbuf ++ [v]) src
      | none =>
        if isNewline c then decodeQuantum dbuf src
        else if c ≠ 61 then (src, [], true)
        else if dbuf.length < 2 then (src, [], true)
        else if dbuf.length = 2 then
          match src.dropWhile isNewline with
          | [] => ([], [], true)
          | d :: rest =>
            if d ≠ 61 then (d :: rest, [], true)
            else
              let tl := rest.dropWhile isNewline
              (tl, quantumBytes dbuf, !tl.isEmpty)
        else
          let tl := src.dropWhile isNewline
          (tl, quantumBytes dbuf, !tl.isEmpty)

/-- The loop of Decode: quantum after quantum until the input is used up or an
error is raised; the bytes decoded so far are kept in both cases. -/
def decodeLoop : Nat → Str → Str × Bool
  | 0, _ => ([], true)
  | _ + 1, [] => ([], true)
  | fuel + 1, c :: src =>
    match decodeQuantum [] (c :: src) with
    | (_, out, true) => (out, false)
    | (rest, out, false) =>
      let r := decodeLoop fuel rest
      (out ++ r.1, r.2)

/-- The function base64.StdEncoding.DecodeString: the decoded bytes and
whether the error is nil. -/
def DecodeString (s : Str) : Str × Bool := decodeLoop (s.length + 1) s

/-! ### fmt verbs -/

def decimal (n : Nat) : Str := lit (Nat.repr n)

def padZeros (w : Nat) (s : Str) : Str := List.replicate (w - s.length) 48 ++ s

/-- The verb %d on an int. -/
def fmtD (i : Int) : Str :=
  if i < 0 then 45 :: decimal i.natAbs else decimal i.natAbs

/-- The verb %03d on an int: the sign counts for the width. -/
def fmt03d (i : Int) : Str :=
  if i < 0 then 45 :: padZeros 2 (decimal i.natAbs) else padZeros 3 (decimal i.natAbs)

/-! ## Data model -/

/-- A Go map with string keys, as an association list in insertion order. -/
abbrev GoMap (β : Type) := List (Str × β)

/-- The two-result map read `v, ok := m[k]`. -/
def mapGet {β : Type} (m : GoMap β) (k : Str) : Option β := List.lookup k m

/-- The map write `m[k] = v`. -/
def mapSet {β : Type} : GoMap β → Str → β → GoMap β
  | [], k, v => [(k, v)]
  | (k0, v0) :: m, k, v => if k0 = k then (k0, v) :: m else (k0, v0) :: mapSet m k v

/-- The one-result map read `m[k]` of a map of slices: nil for a missing key. -/
def attr (m : GoMap (List Str)) (k : Str) : List Str := (mapGet m k).getD []

/-- The one-result map read `m[k]` of a map of ints: 0 for a missing key. -/
def count (m : GoMap Int) (k : Str) : Int := (mapGet m k).getD 0

structure AttrMeta where
  Name : Str
  IsList : Bool
deriving DecidableEq, Repr

structure Record where
  DN : Str
  UID : Str
  CN : Str
  Mail : Str
  IsGroup : Bool
  IsUser : Bool
  Attributes : GoMap (List Str)
deriving DecidableEq, Repr

structure MapEntry where
  Target : Str
  Decode : Bool
deriving DecidableEq, Repr

/-- What went out to the external collaborators: a query body posted to the
remote store, or a call of the password tool. -/
inductive Event where
  | query (body : Str)
  | setPassword (username password : Str)
deriving DecidableEq, Repr

/-- The process-wide variables.  The last two fields are not in the program:
`sent` records the traffic to the collaborators and `linkCalls` the arguments
of every call of `link`, so that claims about requests can be stated. -/
structure Globals where
  fieldMap : GoMap MapEntry
  existingAttrs : GoMap Str
  groupNameToID : GoMap Int
  dnToUid : GoMap Str
  fieldCount : GoMap Int
  fieldBytes : GoMap Int
  records : List Record
  uSchema : GoMap AttrMeta
  gSchema : GoMap AttrMeta
  sent : List Event
  linkCalls : List (Str × Str)
deriving DecidableEq, Repr

/-- The initial value of the variable fieldMap. -/
def fieldMap : GoMap MapEntry :=
  [(lit "jpegphoto", ⟨lit "avatar", false⟩),
   (lit "photo", ⟨lit "avatar", false⟩),
   (lit "givenname", ⟨lit "firstname", false⟩),
   (lit "given_name", ⟨lit "firstname", false⟩),
   (lit "sn", ⟨lit "lastname", false⟩),
   (lit "surname", ⟨lit "lastname", false⟩),
   (lit "mail", ⟨lit "mail", false⟩),
   (lit "uid", ⟨lit "uid", false⟩)]

/-- The process-wide variables at program start. -/
def initGlobals : Globals where
  fieldMap := fieldMap
  existingAttrs := []
  groupNameToID := []
  dnToUid := []
  fieldCount := []
  fieldBytes := []
  records := []
  uSchema := []
  gSchema := []
  sent := []
  linkCalls := []

/-- A record as parseLDIF allocates it: `&Record{Attributes: make(...)}`. -/
def emptyRecord : Record := ⟨[], [], [], [], false, false, []⟩

/-! ## Helpers of the program -/

def sanitizeID (rt : Runtime) (input : Str) : Str :=
  let s := ToLower rt input
  let s := ReplaceAll s 32 46
  ReplaceAllString (fun c => !isIdByte c) s []

def resolveAttributeName (rt : Runtime) (g : Globals) (src : Str) : Str :=
  let low := ToLower rt src
  let normalized := ReplaceAllString (fun c => !isLowerAlnum c) low []
  match mapGet g.existingAttrs normalized with
  | some v => v
  | none => normalized

def isCore (k : Str) : Bool :=
  k = lit "dn" || k = lit "uid" || k = lit "cn" || k = lit "mail" || k = lit "object_class" ||
  k = lit "objectclass" || k = lit "userpassword" || k = lit "firstname" || k = lit "lastname"

def getFirst (m : GoMap (List Str)) (k : Str) : Str :=
  match mapGet m k with
  | some (v :: _) => v
  | _ => []

/-! ## Parsing -/

def parseAttribute (rt : Runtime) (g : Globals) (r : Record) (line : Str) : Globals × Record :=
  match SplitN2 line 58 with
  | rawKey :: val :: _ =>
    let isB64 := HasPrefix val (lit ":")
    let val := if isB64 then TrimPrefix val (lit ":") else val
    let val := TrimSpace val
    let lowerKey := ToLower rt rawKey
    let targetKey := resolveAttributeName rt g rawKey
    let tv : Str × Str :=
      match mapGet g.fieldMap lowerKey with
      | some mapping =>
        (mapping.Target, if isB64 && mapping.Decode then (DecodeString val).1 else val)
      | none => (targetKey, if isB64 then (DecodeString val).1 else val)
    let targetKey := tv.1
    let val := tv.2
    let r :=
      if targetKey = lit "dn" then { r with DN := val }
      else if targetKey = lit "uid" then { r with UID := val }
      else if targetKey = lit "cn" then { r with CN := val }
      else if targetKey = lit "mail" then { r with Mail := val }
      else r
    let r := { r with Attributes := mapSet r.Attributes targetKey (attr r.Attributes targetKey ++ [val]) }
    ({ g with
        fieldCount := mapSet g.fieldCount targetKey (count g.fieldCount targetKey + 1)
        fieldBytes := mapSet g.fieldBytes targetKey (count g.fieldBytes targetKey + val.length) }, r)
  | _ => (g, r)

/-- The first loop of finalizeRecord: one class value. -/
def classify (rt : Runtime) (r : Record) (c : Str) : Record :=
  let lc := ToLower rt c
  let r := if lc = lit "posixgroup" then { r with IsGroup := true } else r
  if lc = lit "inetorgperson" || lc = lit "posixaccount" || lc = lit "simplesecurityobject" ||
      lc = lit "shadowaccount" || lc = lit "person" then { r with IsUser := true }
  else r

/-- The second loop of finalizeRecord: one attribute of the record. -/
def observe (tS : GoMap AttrMeta) (kv : Str × List Str) : GoMap AttrMeta :=
  if isCore kv.1 then tS
  else
    let tS := match mapGet tS kv.1 with
      | some _ => tS
      | none => mapSet tS kv.1 ⟨kv.1, false⟩
    if kv.2.length > 1 then
      match mapGet tS kv.1 with
      | some m => mapSet tS kv.1 { m with IsList := true }
      | none => tS
    else tS

def finalizeRecord (rt : Runtime) (g : Globals) (r : Record) : Globals × Record :=
  let classes := attr r.Attributes (lit "object_class") ++ attr r.Attributes (lit "objectclass")
  let r := classes.foldl (classify rt) r
  let r := if r.UID ≠ [] ∧ !r.IsGroup then { r with IsUser := true } else r
  let g :=
    if r.IsGroup then { g with gSchema := (rt.rangeOrder r.Attributes).foldl observe g.gSchema }
    else { g with uSchema := (rt.rangeOrder r.Attributes).foldl observe g.uSchema }
  let g :=
    if r.IsUser then
      let effectiveID := if r.UID = [] then sanitizeID rt r.CN else r.UID
      if effectiveID ≠ [] then
        { g with dnToUid := mapSet g.dnToUid (ToLower rt r.DN) (ToLower rt effectiveID) }
      else g
    else g
  (g, r)

/-- The local variables of parseLDIF next to the process-wide ones. -/
structure ParseState where
  g : Globals
  cur : Option Record
  logicalLine : Str
deriving DecidableEq, Repr

/-- The call of parseAttribute guarded by `logicalLine != ""`, allocating the
record when there is none. -/
def flushLine (rt : Runtime) (st : ParseState) : ParseState :=
  if st.logicalLine ≠ [] then
    let p := parseAttribute rt st.g (st.cur.getD emptyRecord) st.logicalLine
    { st with g := p.1, cur := some p.2 }
  else st

/-- The block guarded by `cur != nil`: finalize and append the record. -/
def closeRecord (rt : Runtime) (st : ParseState) : ParseState :=
  match st.cur with
  | some r =>
    let p := finalizeRecord rt st.g r
    { st with g := { p.1 with records := p.1.records ++ [p.2] }, cur := none }
  | none => st

/-- One iteration of the scanner loop of parseLDIF on the line `line`. -/
def scanLine (rt : Runtime) (st : ParseState) (line : Str) : ParseState :=
  if HasPrefix line (lit " ") then
    { st with logicalLine := st.logicalLine ++ line.drop 1 }
  else
    let st := flushLine rt st
    if TrimSpace line = [] then
      { closeRecord rt st with logicalLine := [] }
    else
      { st with logicalLine := line }

/-- The function parseLDIF on the lines that the scanner yields. -/
def parseLDIF (rt : Runtime) (g : Globals) (lines : List Str) : Globals :=
  let st := lines.foldl (scanLine rt) ⟨g, none, []⟩
  (closeRecord rt (flushLine rt st)).g

/-! ## The remote store and the password tool -/

/-- The external collaborators.  Each answer may depend on everything sent
before.  The bearer token, fixed for the whole run, is not modelled. -/
structure Gateway where
  /-- The outcome of posting a query body: `none` for a transport error, else
  the status code and the response body. -/
  post : List Event → Str → Option (Nat × Str)
  /-- Whether the password tool exits without error. -/
  setPassword : List Event → Str → Str → Bool

def talk (gw : Gateway) (g : Globals) (queryBody : Str) : (Str × Bool) × Globals :=
  let g1 := { g with sent := g.sent ++ [Event.query queryBody] }
  match gw.post g.sent queryBody with
  | none => (([], false), g1)
  | some (status, s) =>
    if status ≠ 200 then ((s, false), g1)
    else if Contains s (lit "errors") then
      (if Contains s (lit "None of the records are updated") then ((s, false), g1)
       else ((s, false), g1))
    else ((s, true), g1)

/-- Returns true when the tool reports no error. -/
def execSetPassword (gw : Gateway) (g : Globals) (username password : Str) : Bool × Globals :=
  (gw.setPassword g.sent username password,
   { g with sent := g.sent ++ [Event.setPassword username password] })

def adminUsername : Str := lit "akua"

def FallbackPassword : Str := lit "ChangeMe!2025"

/-! ### Query documents -/

def qCreateUser (idQ cnQ mailQ gnQ lnQ : Str) : Str :=
  lit "mutation \x7b createUser(user: \x7b id: " ++ idQ ++ lit ", displayName: " ++ cnQ ++
  lit ", email: " ++ mailQ ++ lit ", firstName: " ++ gnQ ++ lit ", lastName: " ++ lnQ ++
  lit " \x7d) \x7b id \x7d \x7d"

def qUser (idQ : Str) : Str :=
  lit "query \x7b user(userId: " ++ idQ ++ lit ") \x7b id \x7d \x7d"

def qAddUserToGroup (uQ : Str) (gid : Int) : Str :=
  lit "mutation \x7b addUserToGroup(userId: " ++ uQ ++ lit ", groupId: " ++ fmtD gid ++
  lit ") \x7b ok \x7d \x7d"

def qAvatar (idQ avQ : Str) : Str :=
  lit "mutation \x7b updateUser(user: \x7b id: " ++ idQ ++ lit ", avatar: " ++ avQ ++
  lit " \x7d) \x7b ok \x7d \x7d"

def qInsertAttribute (idQ nameQ valQ : Str) : Str :=
  lit "mutation \x7b updateUser(user: \x7b id: " ++ idQ ++
  lit ", insertAttributes: \x7b name: " ++ nameQ ++ lit ", value: " ++ valQ ++
  lit " \x7d \x7d) \x7b ok \x7d \x7d"

/-! ## Injection -/

/-- Group 1 of the leftmost match of the regular expression `"id":"([^"]+)"`. -/
def findQuotedID : Str → Option Str
  | [] => none
  | c :: s =>
    if HasPrefix (c :: s) (lit "\"id\":\"") then
      let body := ((c :: s).drop 6).takeWhile (fun b => b ≠ 34)
      let after := ((c :: s).drop 6).dropWhile (fun b => b ≠ 34)
      if body ≠ [] ∧ after ≠ [] then some body else findQuotedID s
    else findQuotedID s

def fetchCanonicalUserID (rt : Runtime) (gw : Gateway) (g : Globals) (requestedID : Str) :
    (Str × Bool) × Globals :=
  let idQ := rt.jsonString requestedID
  let p := talk gw g (qUser idQ)
  if !p.1.2 then (([], false), p.2)
  else match findQuotedID p.1.1 with
    | some m => ((m, true), p.2)
    | none => (([], false), p.2)

def link (rt : Runtime) (gw : Gateway) (g : Globals) (u gname : Str) : Bool × Globals :=
  let g := { g with linkCalls := g.linkCalls ++ [(u, gname)] }
  match mapGet g.groupNameToID (ToLower rt gname) with
  | none => (false, g)
  | some gid =>
    let uQ := rt.jsonString (ToLower rt u)
    let p := talk gw g (qAddUserToGroup uQ gid)
    if !p.1.2 && Contains p.1.1 (lit "duplicate key") then (true, p.2)
    else (p.1.2 && Contains p.1.1 (lit "true"), p.2)

def rotateEmail (rt : Runtime) (original surname : Str) (attempt : Int) : Str :=
  match Split 64 original with
  | [loc, domain] =>
    if attempt = 0 then loc ++ lit "." ++ ToLower rt surname ++ lit "@" ++ domain
    else loc ++ lit "-" ++ fmt03d (attempt - 1) ++ lit "@" ++ domain
  | _ => lit "bad-email-" ++ fmtD attempt ++ lit "@imported.local"

/-- The retry loop of upsertUser with `n` iterations left.  Returns the
identifier when `created` is set, and `none` on the two paths that return
`false, 0`. -/
def createLoop (rt : Runtime) (gw : Gateway) (cn gn ln baseEmail : Str) :
    Nat → Int → Str → Str → Globals → Option Str × Globals
  | 0, _, _, _, g => (none, g)
  | n + 1, attempt, lldapID, currentEmail, g =>
    let q := qCreateUser (rt.jsonString lldapID) (rt.jsonString cn) (rt.jsonString currentEmail)
      (rt.jsonString gn) (rt.jsonString ln)
    let p := talk gw g q
    if p.1.2 then (some lldapID, p.2)
    else if Contains p.1.1 (lit "duplicate key") then
      let f := fetchCanonicalUserID rt gw p.2 lldapID
      if f.1.2 then (some f.1.1, f.2)
      else createLoop rt gw cn gn ln baseEmail n (attempt + 1) lldapID
        (rotateEmail rt baseEmail ln attempt) f.2
    else (none, p.2)

/-- One iteration of the attribute loop of upsertUser; `none` is the run-time
panic of `vs[0]` on an empty slice. -/
def applyAttribute (rt : Runtime) (gw : Gateway) (lldapID : Str) (g : Globals)
    (kv : Str × List Str) : Option Globals :=
  if isCore kv.1 then some g
  else match kv.2 with
    | [] => none
    | v0 :: _ =>
      if kv.1 = lit "avatar" || kv.1 = lit "jpegphoto" then
        let clean := ReplaceAllString isReSpace v0 []
        if clean.length > 50000 then some g
        else some (talk gw g (qAvatar (rt.jsonString lldapID) (rt.jsonString clean))).2
      else
        let valQ := if kv.2.length > 1 then rt.jsonStrings kv.2 else rt.jsonString v0
        some (talk gw g (qInsertAttribute (rt.jsonString lldapID) (rt.jsonString kv.1) valQ)).2

def applyAttributes (rt : Runtime) (gw : Gateway) (lldapID : Str) :
    Globals → List (Str × List Str) → Option Globals
  | g, [] => some g
  | g, kv :: kvs =>
    match applyAttribute rt gw lldapID g kv with
    | some g1 => applyAttributes rt gw lldapID g1 kvs
    | none => none

/-- The part of upsertUser after the retry loop has set `created`. -/
def afterCreate (rt : Runtime) (gw : Gateway) (r : Record) (isService : Bool)
    (finalPassword lldapID : Str) (g : Globals) : Option ((Bool × Int) × Globals) :=
  let f := fetchCanonicalUserID rt gw g lldapID
  if !f.1.2 then some ((false, 0), f.2)
  else
    let g := f.2
    let g :=
      if lldapID = adminUsername then g
      else
        let e := execSetPassword gw g lldapID finalPassword
        if !e.1 then (execSetPassword gw e.2 lldapID FallbackPassword).2 else e.2
    let l1 : Int × Globals :=
      if r.UID ≠ [] then
        let p := link rt gw g lldapID (lit "posixUser")
        (if p.1 then 1 else 0, p.2)
      else (0, g)
    let l2 : Int × Globals :=
      if isService then
        let p := link rt gw l1.2 lldapID (lit "service")
        (if p.1 then l1.1 + 1 else l1.1, p.2)
      else l1
    match applyAttributes rt gw lldapID l2.2 (rt.rangeOrder r.Attributes) with
    | some g => some ((true, l2.1), g)
    | none => none

/-- The local variable lldapID of upsertUser before the retry loop. -/
def userID (rt : Runtime) (r : Record) : Str :=
  let lldapID := if r.UID = [] then sanitizeID rt r.CN else r.UID
  ToLower rt lldapID

/-- The local variable isService of upsertUser. -/
def isService (rt : Runtime) (r : Record) : Bool :=
  let allClasses := attr r.Attributes (lit "object_class") ++ attr r.Attributes (lit "objectclass")
  allClasses.any (fun c => ToLower rt c = lit "simplesecurityobject")

/-- The local variable cn of upsertUser. -/
def displayName (rt : Runtime) (r : Record) : Str :=
  if r.CN = [] then userID rt r else r.CN

/-- The local variable gn of upsertUser. -/
def givenName (rt : Runtime) (r : Record) : Str :=
  match mapGet r.Attributes (lit "firstname") with
  | some (v :: _) => v
  | _ => displayName rt r

/-- The local variable ln of upsertUser. -/
def familyName (rt : Runtime) (r : Record) : Str :=
  let ln := if isService rt r then displayName rt r else lit "Imported"
  match mapGet r.Attributes (lit "lastname") with
  | some (v :: _) => v
  | _ => ln

/-- The local variable baseEmail of upsertUser. -/
def baseEmail (rt : Runtime) (r : Record) : Str :=
  if r.Mail = [] || !Contains r.Mail (lit "@") then
    (if isService rt r then lit "service-" ++ sanitizeID rt (displayName rt r) ++ lit "@akua.com"
     else userID rt r ++ lit "@imported.local")
  else r.Mail

/-- The local variable finalPassword of upsertUser. -/
def finalPassword (r : Record) : Str :=
  let importPass := getFirst r.Attributes (lit "userpassword")
  if importPass.length ≥ 8 then importPass else FallbackPassword

def upsertUser (rt : Runtime) (gw : Gateway) (g : Globals) (r : Record) :
    Option ((Bool × Int) × Globals) :=
  if userID rt r = [] then some ((false, 0), g)
  else
    match createLoop rt gw (displayName rt r) (givenName rt r) (familyName rt r) (baseEmail rt r)
        100 0 (userID rt r) (baseEmail rt r) g with
    | (none, g) => some ((false, 0), g)
    | (some lldapID, g) => afterCreate rt gw r (isService rt r) (finalPassword r) lldapID g

/-! ## Linking (phase 4 of main) -/

/-- The body of the loop over `r.Attributes["member_uid"]`. -/
def linkUid (rt : Runtime) (gw : Gateway) (gn : Str) (acc : Globals × Int) (u : Str) :
    Globals × Int :=
  let p := link rt gw acc.1 u gn
  (p.2, if p.1 then acc.2 + 1 else acc.2)

/-- The body of the loop over `r.Attributes["member"]`. -/
def linkMember (rt : Runtime) (gw : Gateway) (gn : Str) (acc : Globals × Int) (mdn : Str) :
    Globals × Int :=
  match mapGet acc.1.dnToUid (ToLower rt mdn) with
  | some uid =>
    let p := link rt gw acc.1 uid gn
    (p.2, if p.1 then acc.2 + 1 else acc.2)
  | none => acc

/-- The body of the loop over the records in phase 4. -/
def linkRecord (rt : Runtime) (gw : Gateway) (acc : Globals × Int) (r : Record) : Globals × Int :=
  if r.IsGroup then
    let gn := ToLower rt (getFirst r.Attributes (lit "cn"))
    let acc := (attr r.Attributes (lit "member_uid")).foldl (linkUid rt gw gn) acc
    (attr r.Attributes (lit "member")).foldl (linkMember rt gw gn) acc
  else acc

/-- Phase 4 of main: the globals and the counter linksCreated. -/
def linkingPass (rt : Runtime) (gw : Gateway) (g : Globals) (linksCreated : Int) : Globals × Int :=
  g.records.foldl (linkRecord rt gw) (g, linksCreated)

/-! ## Definitions that follow the words of the specification -/

/-- The identifier alphabet of the specification: lower-case ASCII letters,
digits, dot, underscore and hyphen. -/
def idAlphabet : Str := lit "abcdefghijklmnopqrstuvwxyz0123456789._-"

/-- The sanitizer in the words of the specification: lower-case the input,
replace every space by a dot, delete every byte outside the alphabet. -/
def sanitizeSpec (rt : Runtime) (s : Str) : Str :=
  ((ToLower rt s).map (fun c => if c = 32 then 46 else c)).filter (fun c => decide (c ∈ idAlphabet))


/-- The person-object-class markers as the specification lists them. -/
def personClasses : List Str :=
  [lit "inetOrgPerson", lit "posixAccount", lit "simpleSecurityObject", lit "shadowAccount",
   lit "person"]

/-- The class values that finalizeRecord gathers: both spellings of the
object-class attribute. -/
def classValues (r : Record) : List Str :=
  attr r.Attributes (lit "object_class") ++ attr r.Attributes (lit "objectclass")

/-- Two strings are equal case-insensitively: their lower-cased forms agree. -/
def equalIgnoringCase (rt : Runtime) (a b : Str) : Prop := ToLower rt a = ToLower rt b

/-! ## Sample inputs for the evaluated instances -/

/-- A gateway that answers every request with a duplicate-key error and whose
password tool succeeds. -/
def dupGateway : Gateway where
  post := fun _ _ => some (200, lit "\x7b\"errors\":[\"duplicate key value\"]\x7d")
  setPassword := fun _ _ _ => true

/-- A gateway that answers every request with the same successful body. -/
def okGateway : Gateway where
  post := fun _ _ => some (200, lit "\x7b\"data\":\x7b\"id\":\"bob\",\"ok\":true\x7d\x7d")
  setPassword := fun _ _ _ => true

/-- The initial globals with the group `staff` known under the ID 7. -/
def staffGlobals : Globals := { initGlobals with groupNameToID := [(lit "staff", 7)] }

/-- An export with the person `Jane Doe`, who has no uid, and the group
`staff` that lists her by distinguished name. -/
def janeLines : List Str :=
  [lit "dn: cn=Jane Doe,ou=people,dc=example,dc=com", lit "cn: Jane Doe",
   lit "objectClass: person", lit "",
   lit "dn: cn=staff,ou=groups,dc=example,dc=com", lit "cn: staff",
   lit "objectClass: posixGroup", lit "member: cn=Jane Doe,ou=people,dc=example,dc=com"]

/-- The group record of the export `janeLines` as parseLDIF returns it. -/
def staffRecord : Record :=
  ⟨lit "cn=staff,ou=groups,dc=example,dc=com", [], lit "staff", [], true, false,
   [(lit "dn", [lit "cn=staff,ou=groups,dc=example,dc=com"]), (lit "cn", [lit "staff"]),
    (lit "objectclass", [lit "posixGroup"]),
    (lit "member", [lit "cn=Jane Doe,ou=people,dc=example,dc=com"])]⟩

/-- The globals after parsing `janeLines`, with the group `staff` known. -/
def janeGlobals : Globals :=
  { parseLDIF asciiRuntime initGlobals janeLines with groupNameToID := [(lit "staff", 7)] }

/-- The export of the end-to-end scenario: the person `bob` and the group
`staff` with `memberUid: bob`. -/
def bobLines : List Str :=
  [lit "uid: bob", lit "cn: Bob Jones", lit "mail: bob@x.com", lit "",
   lit "cn: staff", lit "objectClass: posixGroup", lit "memberUid: bob"]

/-- The invariant of the existing-attribute-name cache under warmupSchema and
ensureAttribute: each key is the lower-cased form of its value. -/
def cacheInv (rt : Runtime) (cache : GoMap Str) : Prop :=
  ∀ k v, mapGet cache k = some v → k = ToLower rt v

/-- The record holds nothing under `member_uid`. -/
def noMemberUid (r : Record) : Prop := mapGet r.Attributes (lit "member_uid") = none

/-- What parseLDIF keeps true while the cache invariant holds: the alias table
is the initial one, and neither a finished record nor the open one holds a
value under `member_uid`. -/
def ParseInv (rt : Runtime) (st : ParseState) : Prop :=
  st.g.fieldMap = fieldMap ∧ cacheInv rt st.g.existingAttrs ∧
  (∀ r ∈ st.g.records, noMemberUid r) ∧ (∀ r, st.cur = some r → noMemberUid r)

/-- The request or tool call is addressed to the identifier `id`: a lookup of
`id`, a password change of `id`, a membership request for the lower-cased `id`,
or an update of the user `id`. -/
def AddressedTo (rt : Runtime) (id : Str) : Event → Prop
  | Event.query body =>
    body = qUser (rt.jsonString id) ∨
    (∃ gid, body = qAddUserToGroup (rt.jsonString (ToLower rt id)) gid) ∨
    (∃ avQ, body = qAvatar (rt.jsonString id) avQ) ∨
    (∃ nameQ valQ, body = qInsertAttribute (rt.jsonString id) nameQ valQ)
  | Event.setPassword username _ => username = id

/-- The event is a creation request. -/
def isCreateRequest : Event → Bool
  | Event.query body => HasPrefix body (lit "mutation \x7b createUser(")
  | Event.setPassword _ _ => false

/-- The globals `g2` come from `g1` by traffic addressed to `id` only. -/
def ExtendsFor (rt : Runtime) (id : Str) (g1 g2 : Globals) : Prop :=
  ∃ later, g2.sent = g1.sent ++ later ∧
    (∀ e ∈ later, AddressedTo rt id e ∧ isCreateRequest e = false) ∧
    g2.groupNameToID = g1.groupNameToID

/-- Every key of the record holds at least one value. -/
def valuesNonempty (r : Record) : Prop := ∀ kv ∈ r.Attributes, kv.2 ≠ []

/-! ## Groups and injection (phase 3 of main) -/

def qCreateGroup (nQ : Str) : Str :=
  lit "mutation \x7b createGroup(name: " ++ nQ ++ lit ") \x7b id \x7d \x7d"

/-- The class of the regular expression \d. -/
def isDigit (c : UInt8) : Bool := 48 ≤ c && c ≤ 57

/-- Group 1 of the leftmost match of the regular expression `"id":(\d+)`. -/
def findNumericID : Str → Option Str
  | [] => none
  | c :: s =>
    if HasPrefix (c :: s) (lit "\"id\":") then
      let digits := ((c :: s).drop 5).takeWhile isDigit
      if digits ≠ [] then some digits else findNumericID s
    else findNumericID s

/-- The call fmt.Sscanf(s, "%d", &id) on a string of digits with `id` zero
before: the value of the digits, or zero when it does not fit a 64-bit int,
in which case Sscanf reports an error and leaves `id` alone. -/
def scanInt (digits : Str) : Int :=
  let n : Nat := digits.foldl (fun acc c => acc * 10 + (c.toNat - 48)) 0
  if n < 2 ^ 63 then (n : Int) else 0

def ensureG (rt : Runtime) (gw : Gateway) (g : Globals) (n : Str) : Bool × Globals :=
  let low := ToLower rt n
  match mapGet g.groupNameToID low with
  | some _ => (false, g)
  | none =>
    let p := talk gw g (qCreateGroup (rt.jsonString n))
    if !p.1.2 then (false, p.2)
    else match findNumericID p.1.1 with
      | some m =>
        (true, { p.2 with groupNameToID := mapSet p.2.groupNameToID low (scanInt m) })
      | none => (false, p.2)

/-- The counters usersCreated, groupsCreated and linksCreated of main. -/
structure Counters where
  usersCreated : Int
  groupsCreated : Int
  linksCreated : Int
deriving DecidableEq, Repr

/-- The body of the loop over the records in phase 3; `none` is a run-time
panic inside upsertUser. -/
def injectRecord (rt : Runtime) (gw : Gateway) (acc : Globals × Counters) (r : Record) :
    Option (Globals × Counters) :=
  if r.IsUser then
    match upsertUser rt gw acc.1 r with
    | some ((ok, links), g) =>
      if ok then
        some (g, { acc.2 with usersCreated := acc.2.usersCreated + 1
                              linksCreated := acc.2.linksCreated + links })
      else some (g, acc.2)
    | none => none
  else if r.IsGroup && r.CN ≠ [] then
    let p := ensureG rt gw acc.1 r.CN
    if p.1 then some (p.2, { acc.2 with groupsCreated := acc.2.groupsCreated + 1 })
    else some (p.2, acc.2)
  else some acc

/-- The loop of phase 3 over the records that are left. -/
def injectRecords (rt : Runtime) (gw : Gateway) :
    Globals × Counters → List Record → Option (Globals × Counters)
  | acc, [] => some acc
  | acc, r :: rs =>
    match injectRecord rt gw acc r with
    | some acc1 => injectRecords rt gw acc1 rs
    | none => none

/-- Phase 3 of main. -/
def injectionPass (rt : Runtime) (gw : Gateway) (g : Globals) : Option (Globals × Counters) :=
  injectRecords rt gw (g, ⟨0, 0, 0⟩) g.records

/-- Phases 3 and 4 of main on the globals left by parsing: the final globals
and counters. -/
def injectAndLink (rt : Runtime) (gw : Gateway) (g : Globals) : Option (Globals × Counters) :=
  match injectionPass rt gw g with
  | some (g1, c) =>
    let p := linkingPass rt gw g1 c.linksCreated
    some (p.1, { c with linksCreated := p.2 })
  | none => none

/-- The CN field holds the last value stored under `cn`, and is empty when
there is none. -/
def cnIsLast (r : Record) : Prop :=
  ((attr r.Attributes (lit "cn")).getLast?).getD [] = r.CN

/-- The event is a membership request. -/
def isLinkRequest : Event → Bool
  | Event.query body => HasPrefix body (lit "mutation \x7b addUserToGroup(")
  | Event.setPassword _ _ => false

/-- What the evaluated instances look at after phases 3 and 4: the group-ID
map, the calls of link, the membership requests sent and the counters. -/
structure Outcome where
  groups : GoMap Int
  linkCalls : List (Str × Str)
  linkRequests : List Event
  counters : Counters
deriving DecidableEq, Repr

def outcome (x : Globals × Counters) : Outcome :=
  ⟨x.1.groupNameToID, x.1.linkCalls, x.1.sent.filter isLinkRequest, x.2⟩

/-- A store that creates every group under the ID 7 and answers every other
request with the user `jane.doe` and `ok: true`. -/
def storeGateway : Gateway where
  post := fun _ q =>
    if HasPrefix q (lit "mutation \x7b createGroup(") then
      some (200, lit "\x7b\"data\":\x7b\"createGroup\":\x7b\"id\":7\x7d\x7d\x7d")
    else some (200, lit "\x7b\"data\":\x7b\"user\":\x7b\"id\":\"jane.doe\"\x7d,\"ok\":true\x7d\x7d")
  setPassword := fun _ _ _ => true

/-- The export `janeLines` with a second common name on the group record. -/
def twoNameLines : List Str :=
  [lit "dn: cn=Jane Doe,ou=people,dc=example,dc=com", lit "cn: Jane Doe",
   lit "objectClass: person", lit "",
   lit "dn: cn=staff,ou=groups,dc=example,dc=com", lit "cn: staff", lit "cn: employees",
   lit "objectClass: posixGroup", lit "member: cn=Jane Doe,ou=people,dc=example,dc=com"]

/-- The membership request that link sends for the user `u` and the group
ID `gid`. -/
def linkRequest (rt : Runtime) (u : Str) (gid : Int) : Event :=
  Event.query (qAddUserToGroup (rt.jsonString (ToLower rt u)) gid)

/-- The export `janeLines` with the record `staff` classed as a group and as a
person: phase 3 takes it for a user and ensures no group for it. -/
def groupPersonLines : List Str :=
  [lit "dn: cn=Jane Doe,ou=people,dc=example,dc=com", lit "cn: Jane Doe",
   lit "objectClass: person", lit "",
   lit "dn: cn=staff,ou=groups,dc=example,dc=com", lit "cn: staff",
   lit "objectClass: posixGroup", lit "objectClass: person",
   lit "member: cn=Jane Doe,ou=people,dc=example,dc=com"]
/-! ## Lemmas on strings and maps -/

theorem mapGet_mapSet_same {β : Type} (m : GoMap β) (k : Str) (v : β) :
    mapGet (mapSet m k v) k = some v := by
  induction m with
  | nil => simp [mapSet, mapGet, List.lookup]
  | cons kv m ih =>
    obtain ⟨k0, v0⟩ := kv
    by_cases h : k0 = k
    · subst h
      simp [mapSet, mapGet, List.lookup]
    · have h2 : (k == k0) = false := by
        simpa using fun e : k = k0 => h e.symm
      simp only [mapSet, if_neg h, mapGet, List.lookup, h2]
      exact ih

theorem mapGet_mapSet_other {β : Type} (m : GoMap β) (k k2 : Str) (v : β) (h : k2 ≠ k) :
    mapGet (mapSet m k v) k2 = mapGet m k2 := by
  induction m with
  | nil =>
    have h2 : (k2 == k) = false := by simpa using h
    simp [mapSet, mapGet, List.lookup, h2]
  | cons kv m ih =>
    obtain ⟨k0, v0⟩ := kv
    by_cases h0 : k0 = k
    · subst h0
      have h2 : (k2 == k0) = false := by simpa using h
      simp [mapSet, mapGet, List.lookup, h2]
    · simp only [mapSet, if_neg h0, mapGet, List.lookup]
      cases hk : k2 == k0
      · exact ih
      · rfl

theorem attr_mapSet_same (m : GoMap (List Str)) (k : Str) (v : List Str) :
    attr (mapSet m k v) k = v := by
  simp [attr, mapGet_mapSet_same]

theorem cut_append (sep : UInt8) (a b : Str) (h : sep ∉ a) :
    cut sep (a ++ sep :: b) = some (a, b) := by
  induction a with
  | nil => simp [cut]
  | cons c a ih =>
    have hc : c ≠ sep := fun e => h (by simp [e])
    have ha : sep ∉ a := fun e => h (by simp [e])
    simp [cut, hc, ih ha]

theorem lit_colons : lit "::" = [58, 58] := by decide

theorem lit_colon : lit ":" = [58] := by decide

/-- The fields of the record that parseAttribute returns for a line with a
colon: the attribute map gains the value under the target key. -/
theorem parseAttribute_marked (rt : Runtime) (g : Globals) (r : Record) (key rest : Str)
    (hkey : (58 : UInt8) ∉ key) :
    (mapGet g.fieldMap (ToLower rt key) = none →
      (parseAttribute rt g r (key ++ lit "::" ++ rest)).2.Attributes =
        mapSet r.Attributes (resolveAttributeName rt g key)
          (attr r.Attributes (resolveAttributeName rt g key) ++
            [(DecodeString (TrimSpace rest)).1])) ∧
    (∀ e : MapEntry, mapGet g.fieldMap (ToLower rt key) = some e →
      (parseAttribute rt g r (key ++ lit "::" ++ rest)).2.Attributes =
        mapSet r.Attributes e.Target
          (attr r.Attributes e.Target ++
            [if e.Decode then (DecodeString (TrimSpace rest)).1 else TrimSpace rest]) ∧
      (e.Target = lit "mail" →
        (parseAttribute rt g r (key ++ lit "::" ++ rest)).2.Mail =
          if e.Decode then (DecodeString (TrimSpace rest)).1 else TrimSpace rest)) := by
  have hsplit : SplitN2 (key ++ lit "::" ++ rest) 58 = [key, 58 :: rest] := by
    have : key ++ lit "::" ++ rest = key ++ 58 :: (58 :: rest) := by
      rw [lit_colons]
      simp
    rw [this]
    simp [SplitN2, cut_append 58 key (58 :: rest) hkey]
  have hpre : HasPrefix (58 :: rest) (lit ":") = true := by
    rw [lit_colon]
    simp [HasPrefix, List.isPrefixOf]
  have htrim : TrimPrefix (58 :: rest) (lit ":") = rest := by
    rw [TrimPrefix, if_pos hpre, lit_colon]
    rfl
  refine ⟨?_, ?_⟩
  · intro hnone
    simp only [parseAttribute, hsplit, hpre, htrim, hnone, if_true, Bool.true_and]
    split_ifs <;> rfl
  · intro e he
    refine ⟨?_, ?_⟩
    · simp only [parseAttribute, hsplit, hpre, htrim, he, if_true, Bool.true_and]
      cases e.Decode <;> simp <;> split_ifs <;> rfl
    · intro hmail
      simp only [parseAttribute, hsplit, hpre, htrim, he, if_true, Bool.true_and, hmail]
      cases e.Decode <;> simp <;> rfl

/-! ## C1: base64-marked attribute lines -/

/-- C1, as stated, fails: `dGVzdEBleGFtcGxlLmNvbQ==` is valid base64 for
`test@example.com`, yet the line `mail:: dGVzdEBleGFtcGxlLmNvbQ==` stores the
undecoded text under `mail` and in the Mail field, because the alias table has
`mail` with the decode flag unset. -/
theorem parseAttribute_mail_base64_undecoded :
    DecodeString (lit "dGVzdEBleGFtcGxlLmNvbQ==") = (lit "test@example.com", true) ∧
    (parseAttribute asciiRuntime initGlobals emptyRecord
      (lit "mail:: dGVzdEBleGFtcGxlLmNvbQ==")).2.Mail = lit "dGVzdEBleGFtcGxlLmNvbQ==" ∧
    attr (parseAttribute asciiRuntime initGlobals emptyRecord
      (lit "mail:: dGVzdEBleGFtcGxlLmNvbQ==")).2.Attributes (lit "mail") =
        [lit "dGVzdEBleGFtcGxlLmNvbQ=="] ∧
    (parseAttribute asciiRuntime initGlobals emptyRecord
      (lit "mail:: dGVzdEBleGFtcGxlLmNvbQ==")).2.Mail ≠ lit "test@example.com" := by
  decide

/-- C1 (amended): take an attribute line `key::rest` whose text, `rest` with the
surrounding white space trimmed, is valid standard base64 for `d`.  When the
lower-cased key is not in the alias table, `d` is appended under the resolved
attribute name.  When it is in the table with the decode flag set, `d` is
appended under the entry's target.  When it is in the table with the decode
flag unset, the text is appended undecoded under the target, and mirrored
undecoded in the Mail field when the target is `mail`.  Every entry of the
table the program starts with has the flag unset. -/
theorem parseAttribute_base64 (rt : Runtime) (g : Globals) (r : Record) (key rest d : Str)
    (hkey : (58 : UInt8) ∉ key) (hvalid : DecodeString (TrimSpace rest) = (d, true)) :
    (mapGet g.fieldMap (ToLower rt key) = none →
      attr (parseAttribute rt g r (key ++ lit "::" ++ rest)).2.Attributes
          (resolveAttributeName rt g key) =
        attr r.Attributes (resolveAttributeName rt g key) ++ [d]) ∧
    (∀ e : MapEntry, mapGet g.fieldMap (ToLower rt key) = some e → e.Decode = true →
      attr (parseAttribute rt g r (key ++ lit "::" ++ rest)).2.Attributes e.Target =
        attr r.Attributes e.Target ++ [d]) ∧
    (∀ e : MapEntry, mapGet g.fieldMap (ToLower rt key) = some e → e.Decode = false →
      attr (parseAttribute rt g r (key ++ lit "::" ++ rest)).2.Attributes e.Target =
        attr r.Attributes e.Target ++ [TrimSpace rest] ∧
      (e.Target = lit "mail" →
        (parseAttribute rt g r (key ++ lit "::" ++ rest)).2.Mail = TrimSpace rest)) ∧
    (∀ kv ∈ fieldMap, kv.2.Decode = false) := by
  have h := parseAttribute_marked rt g r key rest hkey
  rw [hvalid] at h
  refine ⟨?_, ?_, ?_, by decide⟩
  · intro hnone
    rw [h.1 hnone, attr_mapSet_same]
  · intro e he hd
    rw [(h.2 e he).1, attr_mapSet_same, hd]
    rfl
  · intro e he hd
    refine ⟨?_, ?_⟩
    · rw [(h.2 e he).1, attr_mapSet_same, hd]
      rfl
    · intro hm
      rw [(h.2 e he).2 hm, hd]
      rfl

/-- C1 at a key outside the alias table: `description:: dGVzdEBleGFtcGxlLmNvbQ==`
stores `test@example.com`. -/
theorem parseAttribute_base64_witness :
    (58 : UInt8) ∉ lit "description" ∧
    DecodeString (TrimSpace (lit " dGVzdEBleGFtcGxlLmNvbQ==")) = (lit "test@example.com", true) ∧
    mapGet initGlobals.fieldMap (ToLower asciiRuntime (lit "description")) = none ∧
    attr (parseAttribute asciiRuntime initGlobals emptyRecord
        (lit "description" ++ lit "::" ++ lit " dGVzdEBleGFtcGxlLmNvbQ==")).2.Attributes
        (resolveAttributeName asciiRuntime initGlobals (lit "description")) =
      attr emptyRecord.Attributes (resolveAttributeName asciiRuntime initGlobals (lit "description"))
        ++ [lit "test@example.com"] :=
  ⟨by decide, by decide, by decide,
    (parseAttribute_base64 asciiRuntime initGlobals emptyRecord (lit "description")
      (lit " dGVzdEBleGFtcGxlLmNvbQ==") (lit "test@example.com") (by decide) (by decide)).1
      (by decide)⟩

/-! ## C8: sanitizeID -/

theorem byte_cases (P : UInt8 → Prop) (h : ∀ n : Fin 256, P ⟨⟨n⟩⟩) (c : UInt8) : P c := by
  obtain ⟨⟨v⟩⟩ := c
  exact h v

set_option maxRecDepth 100000 in
theorem isIdByte_iff (c : UInt8) : isIdByte c = true ↔ c ∈ idAlphabet := by
  revert c
  apply byte_cases
  decide!

/-- Replacing every maximal run of class bytes by the empty string deletes
exactly the class bytes. -/
theorem replaceRuns_nil (cls : UInt8 → Bool) (b : Bool) (s : Str) :
    replaceRuns cls [] b s = s.filter (fun c => !cls c) := by
  induction s generalizing b with
  | nil => rfl
  | cons c s ih =>
    cases hc : cls c <;> simp [replaceRuns, hc, ih, List.filter]

/-- C8: sanitizeID equals lower-casing, replacing every space by a dot and
deleting every byte outside the identifier alphabet; every byte of the output
is in the alphabet; the empty string is a possible output; and
sanitizeID("Jane Doe O'Brien") = "jane.doe.obrien". -/
theorem sanitizeID_spec (rt : Runtime) (s : Str) :
    sanitizeID rt s = sanitizeSpec rt s ∧
    (∀ c ∈ sanitizeID rt s, c ∈ idAlphabet) ∧
    sanitizeID rt (lit "!") = [] ∧
    sanitizeID rt (lit "Jane Doe O\x27Brien") = lit "jane.doe.obrien" := by
  have hfilter : ∀ t : Str, t.filter (fun c => !(!isIdByte c)) =
      t.filter (fun c => decide (c ∈ idAlphabet)) := by
    intro t
    apply List.filter_congr
    intro c _
    have h := isIdByte_iff c
    cases hb : isIdByte c
    · have : c ∉ idAlphabet := fun hm => by simp [h.2 hm] at hb
      simp [this]
    · simp [h.1 hb]
  have heq : sanitizeID rt s = sanitizeSpec rt s := by
    simp only [sanitizeID, sanitizeSpec, ReplaceAllString, ReplaceAll, replaceRuns_nil]
    exact hfilter _
  refine ⟨heq, ?_, ?_, ?_⟩
  · intro c hc
    rw [heq, sanitizeSpec, List.mem_filter] at hc
    simpa using hc.2
  · have h1 : isASCII (lit "!") = true := by decide
    simp only [sanitizeID, ToLower, h1, if_true]
    decide
  · have h1 : isASCII (lit "Jane Doe O\x27Brien") = true := by decide
    simp only [sanitizeID, ToLower, h1, if_true]
    decide

/-! ## C7: rotateEmail -/

theorem Split_no_sep (sep : UInt8) (a : Str) (h : sep ∉ a) : Split sep a = [a] := by
  induction a with
  | nil => rfl
  | cons c a ih =>
    have hc : c ≠ sep := fun e => h (by simp [e])
    have ha : sep ∉ a := fun e => h (by simp [e])
    simp [Split, hc, ih ha]

theorem Split_append (sep : UInt8) (a b : Str) (h : sep ∉ a) :
    Split sep (a ++ sep :: b) = a :: Split sep b := by
  induction a with
  | nil => simp [Split]
  | cons c a ih =>
    have hc : c ≠ sep := fun e => h (by simp [e])
    have ha : sep ∉ a := fun e => h (by simp [e])
    simp [Split, hc, ih ha]

theorem lit_at : lit "@" = [64] := by decide

/-- C7: rotateEmail is a function of (base, surname, attempt).  For a base
`loc@domain` with exactly one `@`, attempt 0 yields
`loc.<lower-cased surname>@domain` and every attempt n ≥ 1 yields
`loc-<n-1 padded with zeros to three digits>@domain`; for `a@b.com` and `Smith`
the attempts 0, 1, 2 yield `a.smith@b.com`, `a-000@b.com`, `a-001@b.com`. -/
theorem rotateEmail_spec (rt : Runtime) (loc domain surname : Str)
    (hl : (64 : UInt8) ∉ loc) (hd : (64 : UInt8) ∉ domain) :
    rotateEmail rt (loc ++ lit "@" ++ domain) surname 0 =
      loc ++ lit "." ++ ToLower rt surname ++ lit "@" ++ domain ∧
    (∀ n : Nat, 1 ≤ n →
      rotateEmail rt (loc ++ lit "@" ++ domain) surname (n : Int) =
        loc ++ lit "-" ++ (List.replicate (3 - (decimal (n - 1)).length) 48 ++ decimal (n - 1)) ++
          lit "@" ++ domain) ∧
    rotateEmail rt (lit "a@b.com") (lit "Smith") 0 = lit "a.smith@b.com" ∧
    rotateEmail rt (lit "a@b.com") (lit "Smith") 1 = lit "a-000@b.com" ∧
    rotateEmail rt (lit "a@b.com") (lit "Smith") 2 = lit "a-001@b.com" := by
  have hsplit : Split 64 (loc ++ lit "@" ++ domain) = [loc, domain] := by
    rw [lit_at, List.append_assoc, List.singleton_append, Split_append 64 loc domain hl,
      Split_no_sep 64 domain hd]
  have hs : isASCII (lit "Smith") = true := by decide
  refine ⟨?_, ?_, ?_, ?_, ?_⟩
  · simp only [rotateEmail, hsplit, if_true]
  · intro n hn
    have h0 : ((n : Int) = 0) = False := by
      simp only [eq_iff_iff, iff_false]
      omega
    have h1 : ¬ ((n : Int) - 1 < 0) := by omega
    have h2 : ((n : Int) - 1).natAbs = n - 1 := by omega
    simp only [rotateEmail, hsplit, h0, if_false, fmt03d, h1, h2, padZeros]
  · simp only [rotateEmail, ToLower, hs, if_true]
    decide
  · simp only [rotateEmail, ToLower, hs, if_true]
    decide
  · simp only [rotateEmail, ToLower, hs, if_true]
    decide

/-- C7 at the base `a@b.com`, surname `Smith`: attempt 3 yields `a-002@b.com`. -/
theorem rotateEmail_spec_witness :
    (64 : UInt8) ∉ lit "a" ∧ (64 : UInt8) ∉ lit "b.com" ∧
    rotateEmail asciiRuntime (lit "a" ++ lit "@" ++ lit "b.com") (lit "Smith") ((3 : Nat) : Int) =
      lit "a" ++ lit "-" ++ (List.replicate (3 - (decimal (3 - 1)).length) 48 ++ decimal (3 - 1)) ++
        lit "@" ++ lit "b.com" :=
  ⟨by decide, by decide,
    (rotateEmail_spec asciiRuntime (lit "a") (lit "b.com") (lit "Smith") (by decide)
      (by decide)).2.1 3 (by decide)⟩

/-! ## C4: link -/

theorem talk_answer_linkCalls (gw : Gateway) (g : Globals) (calls : List (Str × Str)) (q : Str) :
    (talk gw { g with linkCalls := calls } q).1 = (talk gw g q).1 := by
  simp only [talk]
  cases gw.post g.sent q with
  | none => rfl
  | some a =>
    obtain ⟨status, s⟩ := a
    simp only
    split_ifs <;> rfl

/-- C4: link returns true exactly when the lower-cased group name is in the
group-ID map and the answer to the addUserToGroup request is either a success
whose body contains "true" or a failure whose body contains "duplicate key"; in
particular a "duplicate key" failure for a known group counts as success. -/
theorem link_true_iff (rt : Runtime) (gw : Gateway) (g : Globals) (u gname : Str) :
    ((link rt gw g u gname).1 = true ↔
      ∃ gid, mapGet g.groupNameToID (ToLower rt gname) = some gid ∧
        (((talk gw g (qAddUserToGroup (rt.jsonString (ToLower rt u)) gid)).1.2 = true ∧
            Contains (talk gw g (qAddUserToGroup (rt.jsonString (ToLower rt u)) gid)).1.1
              (lit "true") = true) ∨
         ((talk gw g (qAddUserToGroup (rt.jsonString (ToLower rt u)) gid)).1.2 = false ∧
            Contains (talk gw g (qAddUserToGroup (rt.jsonString (ToLower rt u)) gid)).1.1
              (lit "duplicate key") = true))) ∧
    (∀ gid, mapGet g.groupNameToID (ToLower rt gname) = some gid →
      (talk gw g (qAddUserToGroup (rt.jsonString (ToLower rt u)) gid)).1.2 = false →
      Contains (talk gw g (qAddUserToGroup (rt.jsonString (ToLower rt u)) gid)).1.1
        (lit "duplicate key") = true →
      (link rt gw g u gname).1 = true) := by
  have key : ∀ gid, mapGet g.groupNameToID (ToLower rt gname) = some gid →
      (link rt gw g u gname).1 =
        ((!(talk gw g (qAddUserToGroup (rt.jsonString (ToLower rt u)) gid)).1.2 &&
            Contains (talk gw g (qAddUserToGroup (rt.jsonString (ToLower rt u)) gid)).1.1
              (lit "duplicate key")) ||
          ((talk gw g (qAddUserToGroup (rt.jsonString (ToLower rt u)) gid)).1.2 &&
            Contains (talk gw g (qAddUserToGroup (rt.jsonString (ToLower rt u)) gid)).1.1
              (lit "true"))) := by
    intro gid hgid
    simp only [link, hgid, talk_answer_linkCalls]
    generalize (talk gw g (qAddUserToGroup (rt.jsonString (ToLower rt u)) gid)).1 = ans
    obtain ⟨res, ok⟩ := ans
    cases ok <;> cases Contains res (lit "duplicate key") <;> simp
  refine ⟨⟨?_, ?_⟩, ?_⟩
  · intro h
    cases hg : mapGet g.groupNameToID (ToLower rt gname) with
    | none => simp [link, hg] at h
    | some gid =>
      refine ⟨gid, rfl, ?_⟩
      rw [key gid hg] at h
      revert h
      generalize (talk gw g (qAddUserToGroup (rt.jsonString (ToLower rt u)) gid)).1 = ans
      obtain ⟨res, ok⟩ := ans
      cases ok <;> simp
  · rintro ⟨gid, hg, h⟩
    rw [key gid hg]
    revert h
    generalize (talk gw g (qAddUserToGroup (rt.jsonString (ToLower rt u)) gid)).1 = ans
    obtain ⟨res, ok⟩ := ans
    cases ok <;> simp
  · intro gid hg hfail hdup
    rw [key gid hg, hfail, hdup]
    rfl

/-- C4 at a gateway that reports a duplicate key: linking bob to the known
group Staff succeeds. -/
theorem link_true_iff_witness :
    mapGet staffGlobals.groupNameToID (ToLower asciiRuntime (lit "Staff")) = some 7 ∧
    (talk dupGateway staffGlobals
      (qAddUserToGroup (asciiRuntime.jsonString (ToLower asciiRuntime (lit "bob"))) 7)).1.2 = false ∧
    (link asciiRuntime dupGateway staffGlobals (lit "bob") (lit "Staff")).1 = true :=
  ⟨by decide, by decide,
    (link_true_iff asciiRuntime dupGateway staffGlobals (lit "bob") (lit "Staff")).2 7
      (by decide) (by decide) (by decide)⟩

/-! ## C5: classification in finalizeRecord -/

theorem classify_fold (rt : Runtime) (cs : List Str) (r : Record) :
    (cs.foldl (classify rt) r).IsGroup =
        (r.IsGroup || cs.any (fun c => decide (ToLower rt c = lit "posixgroup"))) ∧
    (cs.foldl (classify rt) r).IsUser =
        (r.IsUser || cs.any (fun c => decide (ToLower rt c = lit "inetorgperson") ||
          decide (ToLower rt c = lit "posixaccount") ||
          decide (ToLower rt c = lit "simplesecurityobject") ||
          decide (ToLower rt c = lit "shadowaccount") || decide (ToLower rt c = lit "person"))) ∧
    (cs.foldl (classify rt) r).UID = r.UID ∧
    (cs.foldl (classify rt) r).Attributes = r.Attributes := by
  induction cs generalizing r with
  | nil => simp
  | cons c cs ih =>
    rw [List.foldl_cons]
    obtain ⟨h1, h2, h3, h4⟩ := ih (classify rt r c)
    rw [h1, h2, h3, h4]
    simp only [classify, List.any_cons]
    refine ⟨?_, ?_, ?_, ?_⟩
    · split_ifs <;> simp_all
    · split_ifs <;> simp_all
    · split_ifs <;> rfl
    · split_ifs <;> rfl

theorem lower_personClasses (rt : Runtime) :
    personClasses.map (ToLower rt) =
      [lit "inetorgperson", lit "posixaccount", lit "simplesecurityobject", lit "shadowaccount",
       lit "person"] ∧ ToLower rt (lit "posixgroup") = lit "posixgroup" := by
  have h1 : isASCII (lit "inetOrgPerson") = true := by decide
  have h2 : isASCII (lit "posixAccount") = true := by decide
  have h3 : isASCII (lit "simpleSecurityObject") = true := by decide
  have h4 : isASCII (lit "shadowAccount") = true := by decide
  have h5 : isASCII (lit "person") = true := by decide
  have h6 : isASCII (lit "posixgroup") = true := by decide
  simp only [personClasses, List.map, ToLower, h1, h2, h3, h4, h5, h6, if_true]
  decide

theorem finalizeRecord_snd (rt : Runtime) (g : Globals) (r : Record) :
    (finalizeRecord rt g r).2 =
      if ((classValues r).foldl (classify rt) r).UID ≠ [] ∧
          (!((classValues r).foldl (classify rt) r).IsGroup) = true then
        { (classValues r).foldl (classify rt) r with IsUser := true }
      else (classValues r).foldl (classify rt) r := rfl

/-- C5: after finalizeRecord on a record with both flags false, IsGroup holds
iff some value under `object_class` or `objectclass` equals `posixgroup`
case-insensitively, and IsUser holds iff some class value equals one of
inetOrgPerson, posixAccount, simpleSecurityObject, shadowAccount, person
case-insensitively, or the UID is non-empty and IsGroup is false.  A parsed
record with class posixGroup and a uid is a group; a parsed record with
`uid: bob` and no class is a person. -/
theorem finalizeRecord_classification (rt : Runtime) (g : Globals) (r : Record)
    (hg : r.IsGroup = false) (hu : r.IsUser = false) :
    ((finalizeRecord rt g r).2.IsGroup = true ↔
      ∃ c ∈ classValues r, equalIgnoringCase rt c (lit "posixgroup")) ∧
    ((finalizeRecord rt g r).2.IsUser = true ↔
      (∃ c ∈ classValues r, ∃ m ∈ personClasses, equalIgnoringCase rt c m) ∨
      (r.UID ≠ [] ∧ (finalizeRecord rt g r).2.IsGroup = false)) ∧
    (parseLDIF asciiRuntime initGlobals
        [lit "uid: staff", lit "objectClass: posixGroup"]).records.map
      (fun x => (x.IsGroup, x.IsUser)) = [(true, false)] ∧
    (parseLDIF asciiRuntime initGlobals [lit "uid: bob"]).records.map
      (fun x => (x.IsGroup, x.IsUser)) = [(false, true)] := by
  obtain ⟨h1, h2, h3, _⟩ := classify_fold rt (classValues r) r
  obtain ⟨hp, hpg⟩ := lower_personClasses rt
  have hgroup : (finalizeRecord rt g r).2.IsGroup =
      (classValues r).any (fun c => decide (ToLower rt c = lit "posixgroup")) := by
    rw [finalizeRecord_snd]
    split_ifs
    · show ((classValues r).foldl (classify rt) r).IsGroup = _
      rw [h1, hg, Bool.false_or]
    · rw [h1, hg, Bool.false_or]
  have hperson : (∃ c ∈ classValues r, ∃ m ∈ personClasses, equalIgnoringCase rt c m) ↔
      (classValues r).any (fun c => decide (ToLower rt c = lit "inetorgperson") ||
          decide (ToLower rt c = lit "posixaccount") ||
          decide (ToLower rt c = lit "simplesecurityobject") ||
          decide (ToLower rt c = lit "shadowaccount") ||
          decide (ToLower rt c = lit "person")) = true := by
    have hm : ∀ c : Str, (∃ m ∈ personClasses, equalIgnoringCase rt c m) ↔
        ToLower rt c ∈ personClasses.map (ToLower rt) := by
      intro c
      simp only [equalIgnoringCase, List.mem_map]
      constructor
      · rintro ⟨m, hm, e⟩
        exact ⟨m, hm, e.symm⟩
      · rintro ⟨m, hm, e⟩
        exact ⟨m, hm, e.symm⟩
    simp only [hm, hp, List.any_eq_true, List.mem_cons, List.mem_singleton, List.not_mem_nil,
      or_false, Bool.or_eq_true, decide_eq_true_eq, or_assoc]
  refine ⟨?_, ?_, by decide, by decide⟩
  · rw [hgroup, List.any_eq_true]
    simp only [equalIgnoringCase, hpg, decide_eq_true_eq]
  · rw [hperson, hgroup]
    rw [finalizeRecord_snd]
    split_ifs with hc
    · show true = true ↔ _
      rw [h3, h1, hg, Bool.false_or] at hc
      simp only [Bool.not_eq_true'] at hc
      simp [hc.1, hc.2]
    · rw [h3, h1, hg, Bool.false_or] at hc
      rw [h2, hu, Bool.false_or]
      simp only [Bool.not_eq_true'] at hc
      constructor
      · intro h
        exact Or.inl h
      · rintro (h | ⟨hne, hf⟩)
        · exact h
        · exact absurd ⟨hne, hf⟩ hc

/-- C5 at the record with one class value `posixGroup` and the UID `staff`:
it is a group. -/
theorem finalizeRecord_classification_witness :
    (⟨[], lit "staff", [], [], false, false, [(lit "objectclass", [lit "posixGroup"])]⟩ :
      Record).IsGroup = false ∧
    ((finalizeRecord asciiRuntime initGlobals
        ⟨[], lit "staff", [], [], false, false, [(lit "objectclass", [lit "posixGroup"])]⟩).2.IsGroup
        = true ↔
      ∃ c ∈ classValues
          ⟨[], lit "staff", [], [], false, false, [(lit "objectclass", [lit "posixGroup"])]⟩,
        equalIgnoringCase asciiRuntime c (lit "posixgroup")) :=
  ⟨rfl, (finalizeRecord_classification asciiRuntime initGlobals
    ⟨[], lit "staff", [], [], false, false, [(lit "objectclass", [lit "posixGroup"])]⟩
    rfl rfl).1⟩

/-! ## C6: linking by distinguished name -/

theorem talk_snd (gw : Gateway) (g : Globals) (q : Str) :
    (talk gw g q).2 = { g with sent := g.sent ++ [Event.query q] } := by
  simp only [talk]
  cases gw.post g.sent q with
  | none => rfl
  | some a =>
    obtain ⟨status, s⟩ := a
    simp only
    split_ifs <;> rfl

/-- What link changes in the globals: it logs the call and sends at most the
one addUserToGroup request. -/
theorem link_snd (rt : Runtime) (gw : Gateway) (g : Globals) (u gn : Str) :
    (link rt gw g u gn).2 =
      { g with
        linkCalls := g.linkCalls ++ [(u, gn)]
        sent := match mapGet g.groupNameToID (ToLower rt gn) with
          | some gid =>
            g.sent ++ [Event.query (qAddUserToGroup (rt.jsonString (ToLower rt u)) gid)]
          | none => g.sent } := by
  simp only [link]
  cases mapGet g.groupNameToID (ToLower rt gn) with
  | none => rfl
  | some gid =>
    simp only
    split_ifs <;> rw [talk_snd]

theorem linkUid_fold (rt : Runtime) (gw : Gateway) (gn : Str) (us : List Str)
    (acc : Globals × Int) :
    (us.foldl (linkUid rt gw gn) acc).1.linkCalls =
        acc.1.linkCalls ++ us.map (fun u => (u, gn)) ∧
    (us.foldl (linkUid rt gw gn) acc).1.dnToUid = acc.1.dnToUid := by
  induction us generalizing acc with
  | nil => simp
  | cons u us ih =>
    rw [List.foldl_cons]
    obtain ⟨h1, h2⟩ := ih (linkUid rt gw gn acc u)
    rw [h1, h2]
    simp [linkUid, link_snd]

theorem linkMember_fold (rt : Runtime) (gw : Gateway) (gn : Str) (ms : List Str)
    (acc : Globals × Int) :
    (ms.foldl (linkMember rt gw gn) acc).1.linkCalls =
        acc.1.linkCalls ++
          ms.filterMap (fun m => (mapGet acc.1.dnToUid (ToLower rt m)).map (fun uid => (uid, gn))) ∧
    (ms.foldl (linkMember rt gw gn) acc).1.dnToUid = acc.1.dnToUid := by
  induction ms generalizing acc with
  | nil => simp
  | cons m ms ih =>
    rw [List.foldl_cons]
    obtain ⟨h1, h2⟩ := ih (linkMember rt gw gn acc m)
    rw [h1, h2]
    cases hm : mapGet acc.1.dnToUid (ToLower rt m) with
    | none => simp [linkMember, hm]
    | some uid => simp [linkMember, hm, link_snd]

/-- The calls of link that one group record adds in the linking pass. -/
theorem linkRecord_calls (rt : Runtime) (gw : Gateway) (acc : Globals × Int)
    (r : Record) (hgroup : r.IsGroup = true) :
    (linkRecord rt gw acc r).1.linkCalls =
      acc.1.linkCalls ++
        (attr r.Attributes (lit "member_uid")).map
          (fun u => (u, ToLower rt (getFirst r.Attributes (lit "cn")))) ++
        (attr r.Attributes (lit "member")).filterMap
          (fun m => (mapGet acc.1.dnToUid (ToLower rt m)).map
            (fun uid => (uid, ToLower rt (getFirst r.Attributes (lit "cn"))))) := by
  simp only [linkRecord, hgroup, if_true]
  obtain ⟨h1, h2⟩ := linkMember_fold rt gw (ToLower rt (getFirst r.Attributes (lit "cn")))
    (attr r.Attributes (lit "member"))
    ((attr r.Attributes (lit "member_uid")).foldl
      (linkUid rt gw (ToLower rt (getFirst r.Attributes (lit "cn")))) acc)
  obtain ⟨h3, h4⟩ := linkUid_fold rt gw (ToLower rt (getFirst r.Attributes (lit "cn")))
    (attr r.Attributes (lit "member_uid")) acc
  rw [h1, h3, h4]

theorem linkUid_fold_sent (rt : Runtime) (gw : Gateway) (gn : Str) (us : List Str)
    (acc : Globals × Int) :
    (us.foldl (linkUid rt gw gn) acc).1.sent =
        acc.1.sent ++
          (match mapGet acc.1.groupNameToID (ToLower rt gn) with
            | some gid => us.map (fun u => linkRequest rt u gid)
            | none => []) ∧
    (us.foldl (linkUid rt gw gn) acc).1.groupNameToID = acc.1.groupNameToID ∧
    (us.foldl (linkUid rt gw gn) acc).1.dnToUid = acc.1.dnToUid := by
  induction us generalizing acc with
  | nil => cases mapGet acc.1.groupNameToID (ToLower rt gn) <;> simp
  | cons u us ih =>
    rw [List.foldl_cons]
    obtain ⟨h1, h2, h3⟩ := ih (linkUid rt gw gn acc u)
    rw [h1, h2, h3]
    simp only [linkUid, link_snd]
    cases mapGet acc.1.groupNameToID (ToLower rt gn) <;> simp [linkRequest]

theorem linkMember_fold_sent (rt : Runtime) (gw : Gateway) (gn : Str) (ms : List Str)
    (acc : Globals × Int) :
    (ms.foldl (linkMember rt gw gn) acc).1.sent =
        acc.1.sent ++
          (match mapGet acc.1.groupNameToID (ToLower rt gn) with
            | some gid => ms.filterMap (fun m =>
                (mapGet acc.1.dnToUid (ToLower rt m)).map (fun uid => linkRequest rt uid gid))
            | none => []) ∧
    (ms.foldl (linkMember rt gw gn) acc).1.groupNameToID = acc.1.groupNameToID ∧
    (ms.foldl (linkMember rt gw gn) acc).1.dnToUid = acc.1.dnToUid := by
  induction ms generalizing acc with
  | nil => cases mapGet acc.1.groupNameToID (ToLower rt gn) <;> simp
  | cons m ms ih =>
    rw [List.foldl_cons]
    obtain ⟨h1, h2, h3⟩ := ih (linkMember rt gw gn acc m)
    rw [h1, h2, h3]
    cases hm : mapGet acc.1.dnToUid (ToLower rt m) with
    | none =>
      simp only [linkMember, hm]
      cases mapGet acc.1.groupNameToID (ToLower rt gn) <;> simp [hm]
    | some uid =>
      simp only [linkMember, hm, link_snd]
      cases mapGet acc.1.groupNameToID (ToLower rt gn) <;> simp [hm, linkRequest]

/-- The requests that one group record adds in the linking pass. -/
theorem linkRecord_sent (rt : Runtime) (gw : Gateway) (acc : Globals × Int)
    (r : Record) (hgroup : r.IsGroup = true) :
    (linkRecord rt gw acc r).1.sent =
      acc.1.sent ++
        (match mapGet acc.1.groupNameToID
            (ToLower rt (ToLower rt (getFirst r.Attributes (lit "cn")))) with
          | some gid =>
            (attr r.Attributes (lit "member_uid")).map (fun u => linkRequest rt u gid) ++
            (attr r.Attributes (lit "member")).filterMap (fun m =>
              (mapGet acc.1.dnToUid (ToLower rt m)).map (fun uid => linkRequest rt uid gid))
          | none => []) := by
  simp only [linkRecord, hgroup, if_true]
  obtain ⟨h1, _, _⟩ := linkMember_fold_sent rt gw (ToLower rt (getFirst r.Attributes (lit "cn")))
    (attr r.Attributes (lit "member"))
    ((attr r.Attributes (lit "member_uid")).foldl
      (linkUid rt gw (ToLower rt (getFirst r.Attributes (lit "cn")))) acc)
  obtain ⟨h3, h4, h5⟩ := linkUid_fold_sent rt gw (ToLower rt (getFirst r.Attributes (lit "cn")))
    (attr r.Attributes (lit "member_uid")) acc
  rw [h1, h3, h4, h5]
  cases mapGet acc.1.groupNameToID (ToLower rt (ToLower rt (getFirst r.Attributes (lit "cn"))))
    <;> simp

/-- C6, as stated, fails: in the export whose record `staff` is classed as a
group and as a person, the member value resolves to `jane.doe` in the
identifier map, yet phase 3 takes the record for a user and ensures no group,
so link finds no `staff` in the group-ID map and returns before it sends
anything: no membership request is issued for the member. -/
theorem resolvable_member_without_request :
    (parseLDIF asciiRuntime initGlobals groupPersonLines).records.map
        (fun r => (r.IsGroup, attr r.Attributes (lit "member"))) =
      [(false, []), (true, [lit "cn=Jane Doe,ou=people,dc=example,dc=com"])] ∧
    mapGet (parseLDIF asciiRuntime initGlobals groupPersonLines).dnToUid
        (ToLower asciiRuntime (lit "cn=Jane Doe,ou=people,dc=example,dc=com")) =
      some (lit "jane.doe") ∧
    (injectAndLink asciiRuntime storeGateway
        (parseLDIF asciiRuntime initGlobals groupPersonLines)).map outcome =
      some ⟨[], [(lit "jane.doe", lit "staff")], [], ⟨2, 0, 0⟩⟩ := by
  decide

/-- C6 (amended): in the linking pass, take a group record and a value m under
its `member` attribute.  If the lower-cased m is a key of the identifier map
and the group key is in the group-ID map, exactly one membership request is
sent for m, and its user is the mapped identifier, never the raw DN.  If the
lower-cased m is a key and the group key is not in the group-ID map, nothing is
sent.  If the lower-cased m is not a key, nothing is sent and the state stays
as it is.  Hence a group record whose key, the lower-cased first value under
`cn`, is known adds one request per `member_uid` value and then one per
resolvable `member` value, in order, and a group record whose key is unknown
adds none.  For the export with `cn: Jane Doe` registered as `jane.doe` and the
group `staff` listing her by DN, with `staff` known, the pass sends one
request, for `jane.doe`. -/
theorem linkRecord_member_requests (rt : Runtime) (gw : Gateway) (acc : Globals × Int)
    (r : Record) (hgroup : r.IsGroup = true) :
    (∀ m uid gn gid, mapGet acc.1.dnToUid (ToLower rt m) = some uid →
      mapGet acc.1.groupNameToID (ToLower rt gn) = some gid →
      (linkMember rt gw gn acc m).1.sent = acc.1.sent ++ [linkRequest rt uid gid]) ∧
    (∀ m uid gn, mapGet acc.1.dnToUid (ToLower rt m) = some uid →
      mapGet acc.1.groupNameToID (ToLower rt gn) = none →
      (linkMember rt gw gn acc m).1.sent = acc.1.sent) ∧
    (∀ m gn, mapGet acc.1.dnToUid (ToLower rt m) = none → linkMember rt gw gn acc m = acc) ∧
    (∀ gid, mapGet acc.1.groupNameToID
        (ToLower rt (ToLower rt (getFirst r.Attributes (lit "cn")))) = some gid →
      (linkRecord rt gw acc r).1.sent =
        acc.1.sent ++
          (attr r.Attributes (lit "member_uid")).map (fun u => linkRequest rt u gid) ++
          (attr r.Attributes (lit "member")).filterMap (fun m =>
            (mapGet acc.1.dnToUid (ToLower rt m)).map (fun uid => linkRequest rt uid gid))) ∧
    (mapGet acc.1.groupNameToID
        (ToLower rt (ToLower rt (getFirst r.Attributes (lit "cn")))) = none →
      (linkRecord rt gw acc r).1.sent = acc.1.sent) ∧
    (linkingPass asciiRuntime okGateway
        { parseLDIF asciiRuntime initGlobals janeLines with groupNameToID := [(lit "staff", 7)] }
        0).1.sent = [Event.query (qAddUserToGroup (lit "\"jane.doe\"") 7)] := by
  refine ⟨?_, ?_, ?_, ?_, ?_, by decide⟩
  · intro m uid gn gid hm hg
    simp [linkMember, hm, link_snd, hg, linkRequest]
  · intro m uid gn hm hg
    simp [linkMember, hm, link_snd, hg]
  · intro m gn hm
    simp [linkMember, hm]
  · intro gid hg
    rw [linkRecord_sent rt gw acc r hgroup, hg]
    simp
  · intro hg
    rw [linkRecord_sent rt gw acc r hgroup, hg]
    simp

/-- C6 at the globals parsed from the export with Jane Doe, the group `staff`
known under the ID 7: the member value `CN=Jane Doe,OU=People,DC=example,DC=com`
resolves to `jane.doe` and one request is sent for `jane.doe`. -/
theorem linkRecord_member_requests_witness :
    staffRecord.IsGroup = true ∧
    mapGet janeGlobals.dnToUid
      (ToLower asciiRuntime (lit "CN=Jane Doe,OU=People,DC=example,DC=com")) =
        some (lit "jane.doe") ∧
    mapGet janeGlobals.groupNameToID (ToLower asciiRuntime (lit "staff")) = some 7 ∧
    (linkMember asciiRuntime okGateway (lit "staff") (janeGlobals, 0)
      (lit "CN=Jane Doe,OU=People,DC=example,DC=com")).1.sent =
        janeGlobals.sent ++ [linkRequest asciiRuntime (lit "jane.doe") 7] :=
  ⟨rfl, by decide, by decide,
    (linkRecord_member_requests asciiRuntime okGateway (janeGlobals, 0) staffRecord rfl).1
      (lit "CN=Jane Doe,OU=People,DC=example,DC=com") (lit "jane.doe") (lit "staff") 7
      (by decide) (by decide)⟩

/-! ## C2: linking by memberUid -/

theorem mapGet_mem {β : Type} (m : GoMap β) (k : Str) (v : β) (h : mapGet m k = some v) :
    (k, v) ∈ m := by
  induction m with
  | nil => simp [mapGet, List.lookup] at h
  | cons kv m ih =>
    obtain ⟨k0, v0⟩ := kv
    simp only [mapGet, List.lookup] at h
    cases hk : k == k0
    · rw [hk] at h
      exact List.mem_cons_of_mem _ (ih h)
    · rw [hk] at h
      have e : k = k0 := by simpa using hk
      simp only [Option.some.injEq] at h
      rw [e, h]
      exact List.mem_cons_self _ _

theorem fieldMap_target_ne (k : Str) (e : MapEntry) (h : mapGet fieldMap k = some e) :
    e.Target ≠ lit "member_uid" := by
  have hall : ∀ kv ∈ fieldMap, kv.2.Target ≠ lit "member_uid" := by decide
  exact hall (k, e) (mapGet_mem fieldMap k e h)

theorem lower_member_uid (rt : Runtime) : ToLower rt (lit "member_uid") = lit "member_uid" := by
  have h : isASCII (lit "member_uid") = true := by decide
  simp only [ToLower, h, if_true]
  decide

/-- With a cache in which each key is the lower-cased form of its value, no
attribute name resolves to `member_uid`, the key that the linking pass reads. -/
theorem resolveAttributeName_ne (rt : Runtime) (g : Globals) (src : Str)
    (hinv : cacheInv rt g.existingAttrs) :
    resolveAttributeName rt g src ≠ lit "member_uid" := by
  have hnorm : ReplaceAllString (fun c => !isLowerAlnum c) (ToLower rt src) [] ≠
      lit "member_uid" := by
    intro e
    have hmem : (95 : UInt8) ∈
        ReplaceAllString (fun c => !isLowerAlnum c) (ToLower rt src) [] := by
      rw [e]
      decide
    rw [ReplaceAllString, replaceRuns_nil, List.mem_filter] at hmem
    exact absurd hmem.2 (by decide)
  simp only [resolveAttributeName]
  cases hc : mapGet g.existingAttrs
      (ReplaceAllString (fun c => !isLowerAlnum c) (ToLower rt src) []) with
  | none => exact hnorm
  | some v =>
    intro e
    simp only at e
    have hk := hinv _ _ hc
    rw [e, lower_member_uid] at hk
    exact hnorm hk

theorem parseAttribute_keeps (rt : Runtime) (g : Globals) (r : Record) (line : Str)
    (hf : g.fieldMap = fieldMap) (hc : cacheInv rt g.existingAttrs) (hr : noMemberUid r) :
    (parseAttribute rt g r line).1.fieldMap = g.fieldMap ∧
    (parseAttribute rt g r line).1.existingAttrs = g.existingAttrs ∧
    (parseAttribute rt g r line).1.records = g.records ∧
    noMemberUid (parseAttribute rt g r line).2 := by
  simp only [parseAttribute]
  split
  · rename_i rawKey val rest hsplit
    refine ⟨rfl, rfl, rfl, ?_⟩
    simp only [noMemberUid]
    rw [mapGet_mapSet_other]
    · split_ifs <;> exact hr
    · cases hm : mapGet g.fieldMap (ToLower rt rawKey) with
      | none => exact (resolveAttributeName_ne rt g rawKey hc).symm
      | some e =>
        rw [hf] at hm
        exact (fieldMap_target_ne _ e hm).symm
  · exact ⟨rfl, rfl, rfl, hr⟩

theorem finalizeRecord_keeps (rt : Runtime) (g : Globals) (r : Record) :
    (finalizeRecord rt g r).1.fieldMap = g.fieldMap ∧
    (finalizeRecord rt g r).1.existingAttrs = g.existingAttrs ∧
    (finalizeRecord rt g r).1.records = g.records ∧
    (finalizeRecord rt g r).2.Attributes = r.Attributes := by
  obtain ⟨_, _, _, h4⟩ := classify_fold rt (classValues r) r
  refine ⟨?_, ?_, ?_, ?_⟩
  · simp only [finalizeRecord]
    split_ifs <;> rfl
  · simp only [finalizeRecord]
    split_ifs <;> rfl
  · simp only [finalizeRecord]
    split_ifs <;> rfl
  · rw [finalizeRecord_snd]
    split_ifs
    · exact h4
    · exact h4
theorem flushLine_inv (rt : Runtime) (st : ParseState) (h : ParseInv rt st) :
    ParseInv rt (flushLine rt st) := by
  obtain ⟨hf, hc, hrs, hcur⟩ := h
  simp only [flushLine]
  split_ifs with hl
  · have hr : noMemberUid (st.cur.getD emptyRecord) := by
      cases hcr : st.cur with
      | none => rfl
      | some r => exact hcur r hcr
    obtain ⟨k1, k2, k3, k4⟩ := parseAttribute_keeps rt st.g (st.cur.getD emptyRecord)
      st.logicalLine hf hc hr
    refine ⟨?_, ?_, ?_, ?_⟩
    · exact k1.trans hf
    · show cacheInv rt (parseAttribute rt st.g (st.cur.getD emptyRecord) st.logicalLine).1.existingAttrs
      rw [k2]
      exact hc
    · intro r hr2
      apply hrs
      rw [← k3]
      exact hr2
    · intro r hr2
      simp only [Option.some.injEq] at hr2
      rw [← hr2]
      exact k4
  · exact ⟨hf, hc, hrs, hcur⟩

theorem closeRecord_inv (rt : Runtime) (st : ParseState) (h : ParseInv rt st) :
    ParseInv rt (closeRecord rt st) := by
  obtain ⟨hf, hc, hrs, hcur⟩ := h
  simp only [closeRecord]
  cases hcr : st.cur with
  | none => exact ⟨hf, hc, hrs, fun r hr => by rw [hcr] at hr; cases hr⟩
  | some r =>
    obtain ⟨k1, k2, k3, k4⟩ := finalizeRecord_keeps rt st.g r
    refine ⟨k1.trans hf, ?_, ?_, ?_⟩
    · show cacheInv rt (finalizeRecord rt st.g r).1.existingAttrs
      rw [k2]
      exact hc
    · intro r2 hr2
      simp only [List.mem_append, List.mem_singleton] at hr2
      rcases hr2 with hr2 | hr2
      · apply hrs
        rw [← k3]
        exact hr2
      · rw [hr2]
        simp only [noMemberUid, k4]
        exact hcur r hcr
    · intro r2 hr2
      cases hr2

theorem scanLine_inv (rt : Runtime) (st : ParseState) (line : Str) (h : ParseInv rt st) :
    ParseInv rt (scanLine rt st line) := by
  simp only [scanLine]
  split_ifs with h1 h2
  · exact h
  · obtain ⟨hf, hc, hrs, hcur⟩ := closeRecord_inv rt _ (flushLine_inv rt st h)
    exact ⟨hf, hc, hrs, hcur⟩
  · obtain ⟨hf, hc, hrs, hcur⟩ := flushLine_inv rt st h
    exact ⟨hf, hc, hrs, hcur⟩

theorem scanLines_inv (rt : Runtime) (lines : List Str) (st : ParseState) (h : ParseInv rt st) :
    ParseInv rt (lines.foldl (scanLine rt) st) := by
  induction lines generalizing st with
  | nil => exact h
  | cons l ls ih => exact ih _ (scanLine_inv rt st l h)

theorem cacheInv_nil (rt : Runtime) : cacheInv rt [] := by
  intro k v h
  cases h

theorem attr_of_noMemberUid (r : Record) (h : noMemberUid r) :
    attr r.Attributes (lit "member_uid") = [] := by
  simp only [attr]
  rw [h]
  rfl

/-- C2 fails on the program.  Whatever the export and whatever the cache, as
long as each cache key is the lower-cased form of its value, no parsed record
holds a value under `member_uid`, the only key from which the linking pass
takes literal member identifiers: parseAttribute files `memberUid` under
`memberuid`.  Hence a group record adds no call of link beyond those for its
resolvable `member` values.  For the export of the end-to-end scenario, with
the group `staff` known to the store, the pass calls link for nobody, sends
nothing and counts no link, although the group record holds `bob` under
`memberuid`. -/
theorem memberUid_never_linked (rt : Runtime) (gw : Gateway) (g : Globals) (lines : List Str)
    (hf : g.fieldMap = fieldMap) (hc : cacheInv rt g.existingAttrs)
    (hrs : ∀ r ∈ g.records, noMemberUid r) :
    (∀ r ∈ (parseLDIF rt g lines).records, attr r.Attributes (lit "member_uid") = []) ∧
    (∀ r ∈ (parseLDIF rt g lines).records, ∀ acc : Globals × Int, r.IsGroup = true →
      (linkRecord rt gw acc r).1.linkCalls =
        acc.1.linkCalls ++ (attr r.Attributes (lit "member")).filterMap
          (fun m => (mapGet acc.1.dnToUid (ToLower rt m)).map
            (fun uid => (uid, ToLower rt (getFirst r.Attributes (lit "cn")))))) ∧
    (parseLDIF asciiRuntime initGlobals bobLines).records.map
        (fun r => (r.IsGroup, r.CN, attr r.Attributes (lit "memberuid"))) =
      [(false, lit "Bob Jones", []), (true, lit "staff", [lit "bob"])] ∧
    (linkingPass asciiRuntime okGateway
        { parseLDIF asciiRuntime initGlobals bobLines with groupNameToID := [(lit "staff", 7)] }
        0).1.linkCalls = [] ∧
    (linkingPass asciiRuntime okGateway
        { parseLDIF asciiRuntime initGlobals bobLines with groupNameToID := [(lit "staff", 7)] }
        0).1.sent = [] ∧
    (linkingPass asciiRuntime okGateway
        { parseLDIF asciiRuntime initGlobals bobLines with groupNameToID := [(lit "staff", 7)] }
        0).2 = 0 := by
  have hinv : ParseInv rt
      (closeRecord rt (flushLine rt (lines.foldl (scanLine rt) ⟨g, none, []⟩))) := by
    apply closeRecord_inv
    apply flushLine_inv
    apply scanLines_inv
    exact ⟨hf, hc, hrs, fun r hr => by cases hr⟩
  have hno : ∀ r ∈ (parseLDIF rt g lines).records, attr r.Attributes (lit "member_uid") = [] :=
    fun r hr => attr_of_noMemberUid r (hinv.2.2.1 r hr)
  refine ⟨hno, ?_, by decide, by decide, by decide, by decide⟩
  intro r hr acc hgroup
  have h := linkRecord_calls rt gw acc r hgroup
  rw [hno r hr] at h
  simpa using h

/-- C2 at the end-to-end export and the empty cache: the parsed records hold
nothing under `member_uid`. -/
theorem memberUid_never_linked_witness :
    initGlobals.fieldMap = fieldMap ∧ cacheInv asciiRuntime initGlobals.existingAttrs ∧
    (∀ r ∈ initGlobals.records, noMemberUid r) ∧
    (∀ r ∈ (parseLDIF asciiRuntime initGlobals bobLines).records,
      attr r.Attributes (lit "member_uid") = []) :=
  ⟨rfl, cacheInv_nil asciiRuntime, fun r hr => absurd hr (List.not_mem_nil r),
    (memberUid_never_linked asciiRuntime okGateway initGlobals bobLines rfl
      (cacheInv_nil asciiRuntime) (fun r hr => absurd hr (List.not_mem_nil r))).1⟩
/-! ## C9: folding of continuation lines -/

theorem scanLine_continuations (rt : Runtime) (conts : List Str) (st : ParseState) :
    (conts.map (fun c => (32 : UInt8) :: c)).foldl (scanLine rt) st =
      { st with logicalLine := st.logicalLine ++ conts.flatten } := by
  induction conts generalizing st with
  | nil => simp
  | cons c cs ih =>
    have hp : HasPrefix (32 :: c) (lit " ") = true := by
      have : lit " " = [32] := by decide
      rw [this]
      simp [HasPrefix, List.isPrefixOf]
    rw [List.map_cons, List.foldl_cons]
    simp only [scanLine, hp, if_true, List.drop_one, List.tail_cons]
    have h := ih { st with logicalLine := st.logicalLine ++ c }
    simp only [scanLine, List.drop_one] at h
    rw [h]
    simp

/-- C9, as stated, fails: the line of one tab is non-empty and does not start
with a space, yet it is blank after trimming, so it ends the record and empties
the buffer.  The continuation ` sn: Smith` is then parsed as `sn: Smith`, an
alias-table key filed under `lastname`, while the single line made of the tab
and `sn: Smith` is filed under `sn`. -/
theorem folding_after_tab_line :
    lit "\t" ≠ [] ∧ HasPrefix (lit "\t") (lit " ") = false ∧
    (parseLDIF asciiRuntime initGlobals [lit "\t", lit " sn: Smith"]).records.map
        (fun r => r.Attributes) = [[(lit "lastname", [lit "Smith"])]] ∧
    (parseLDIF asciiRuntime initGlobals [lit "\t" ++ lit "sn: Smith"]).records.map
        (fun r => r.Attributes) = [[(lit "sn", [lit "Smith"])]] := by
  decide

/-- C9 (amended): take a line L that does not start with a space and is not
blank after trimming white space, followed by continuation lines, each one
space and then c1, ..., ck.  After the scanner loop has read them the buffered
logical line is L ++ c1 ++ ... ++ ck, only the one leading space of each
continuation removed and no separator inserted, and the rest of the state is
as after reading L alone; the next flush hands exactly that string to
parseAttribute.  `foo: baz` followed by ` bar` stores `bazbar` under `foo`. -/
theorem scanLine_folding (rt : Runtime) (st : ParseState) (L : Str) (conts : List Str)
    (hstart : HasPrefix L (lit " ") = false) (hblank : TrimSpace L ≠ []) :
    (L :: conts.map (fun c => (32 : UInt8) :: c)).foldl (scanLine rt) st =
      { flushLine rt st with logicalLine := L ++ conts.flatten } ∧
    flushLine rt { flushLine rt st with logicalLine := L ++ conts.flatten } =
      { g := (parseAttribute rt (flushLine rt st).g ((flushLine rt st).cur.getD emptyRecord)
          (L ++ conts.flatten)).1
        cur := some (parseAttribute rt (flushLine rt st).g
          ((flushLine rt st).cur.getD emptyRecord) (L ++ conts.flatten)).2
        logicalLine := L ++ conts.flatten } ∧
    (parseLDIF asciiRuntime initGlobals [lit "foo: baz", lit " bar"]).records.map
        (fun r => r.Attributes) = [[(lit "foo", [lit "bazbar"])]] := by
  have hL : L ≠ [] := by
    intro e
    apply hblank
    rw [e]
    rfl
  refine ⟨?_, ?_, by decide⟩
  · rw [List.foldl_cons, scanLine_continuations]
    simp only [scanLine, hstart, hblank, if_false, Bool.false_eq_true]
  · have hne : L ++ conts.flatten ≠ [] := by
      intro e
      exact hL (List.append_eq_nil.mp e).1
    simp only [flushLine, hne, ne_eq, not_false_eq_true, if_true]

/-- C9 at `foo: baz` followed by ` bar` and ` qux`: the buffer holds
`foo: bazbarqux`. -/
theorem scanLine_folding_witness :
    HasPrefix (lit "foo: baz") (lit " ") = false ∧ TrimSpace (lit "foo: baz") ≠ [] ∧
    ([lit "foo: baz", 32 :: lit "bar", 32 :: lit "qux"].foldl (scanLine asciiRuntime)
      ⟨initGlobals, none, []⟩).logicalLine = lit "foo: bazbarqux" :=
  ⟨by decide, by decide,
    (congrArg ParseState.logicalLine
      (scanLine_folding asciiRuntime ⟨initGlobals, none, []⟩ (lit "foo: baz")
        [lit "bar", lit "qux"] (by decide) (by decide)).1).trans (by decide)⟩
/-! ## C10: blank lines -/

theorem parseAttribute_records (rt : Runtime) (g : Globals) (r : Record) (line : Str) :
    (parseAttribute rt g r line).1.records = g.records := by
  simp only [parseAttribute]
  split <;> rfl

/-- C10, as stated, fails: the line of one space is empty after trimming, yet
the scanner takes it for a continuation, so it does not end the record.  The
export `uid: a`, one space, `uid: b` is one record with both values, where an
empty line in the middle gives two records. -/
theorem space_line_keeps_record_open :
    TrimSpace (lit " ") = [] ∧
    (parseLDIF asciiRuntime initGlobals [lit "uid: a", lit " ", lit "uid: b"]).records.map
        (fun r => r.Attributes) = [[(lit "uid", [lit "a", lit "b"])]] ∧
    (parseLDIF asciiRuntime initGlobals [lit "uid: a", lit "", lit "uid: b"]).records.map
        (fun r => r.Attributes) = [[(lit "uid", [lit "a"])], [(lit "uid", [lit "b"])]] ∧
    (scanLine asciiRuntime ⟨initGlobals, some emptyRecord, lit "uid: a"⟩ (lit " ")) =
      ⟨initGlobals, some emptyRecord, lit "uid: a"⟩ := by
  decide

/-- C10 (amended): every input line that does not start with a space and is
empty after trimming white space ends the open record at that line.  The
buffered logical line, if any, is parsed as one more attribute of the open
record, or of a fresh one when none is open; that record is finalized and
appended to the output sequence; afterwards no record is open and the buffer is
empty, so the lines that follow start a new record.  When no record is open
and the buffer is empty, the line changes nothing. -/
theorem scanLine_blank (rt : Runtime) (st : ParseState) (line : Str)
    (hstart : HasPrefix line (lit " ") = false) (hblank : TrimSpace line = []) :
    (scanLine rt st line).cur = none ∧ (scanLine rt st line).logicalLine = [] ∧
    (st.logicalLine ≠ [] →
      (scanLine rt st line).g.records = st.g.records ++
        [(finalizeRecord rt
            (parseAttribute rt st.g (st.cur.getD emptyRecord) st.logicalLine).1
            (parseAttribute rt st.g (st.cur.getD emptyRecord) st.logicalLine).2).2]) ∧
    (∀ r, st.logicalLine = [] → st.cur = some r →
      (scanLine rt st line).g.records = st.g.records ++ [(finalizeRecord rt st.g r).2]) ∧
    (st.logicalLine = [] → st.cur = none → scanLine rt st line = st) := by
  have hscan : scanLine rt st line = { closeRecord rt (flushLine rt st) with logicalLine := [] } := by
    simp only [scanLine, hstart, hblank, if_true, Bool.false_eq_true, if_false]
  rw [hscan]
  refine ⟨?_, rfl, ?_, ?_, ?_⟩
  · simp only [closeRecord]
    cases h : (flushLine rt st).cur <;> simp [h]
  · intro hl
    simp only [flushLine, hl, ne_eq, not_false_eq_true, if_true, closeRecord]
    rw [(finalizeRecord_keeps rt _ _).2.2.1, parseAttribute_records]
  · intro r hl hc
    simp only [flushLine, hl, ne_eq, not_true_eq_false, if_false, closeRecord, hc]
    rw [(finalizeRecord_keeps rt _ _).2.2.1]
  · intro hl hc
    simp only [flushLine, hl, ne_eq, not_true_eq_false, if_false, closeRecord, hc]
    cases st
    simp_all

/-- C10 at an empty line read while `uid: a` is buffered: one record is
appended. -/
theorem scanLine_blank_witness :
    HasPrefix (lit "") (lit " ") = false ∧ TrimSpace (lit "") = [] ∧
    (⟨initGlobals, none, lit "uid: a"⟩ : ParseState).logicalLine ≠ [] ∧
    (scanLine asciiRuntime ⟨initGlobals, none, lit "uid: a"⟩ (lit "")).g.records =
      (⟨initGlobals, none, lit "uid: a"⟩ : ParseState).g.records ++
        [(finalizeRecord asciiRuntime
            (parseAttribute asciiRuntime initGlobals
              ((none : Option Record).getD emptyRecord) (lit "uid: a")).1
            (parseAttribute asciiRuntime initGlobals
              ((none : Option Record).getD emptyRecord) (lit "uid: a")).2).2] :=
  ⟨by decide, by decide, by decide,
    (scanLine_blank asciiRuntime ⟨initGlobals, none, lit "uid: a"⟩ (lit "") (by decide)
      (by decide)).2.2.1 (by decide)⟩
/-! ## C3: merge on a duplicate key -/

theorem ExtendsFor.refl (rt : Runtime) (id : Str) (g : Globals) : ExtendsFor rt id g g :=
  ⟨[], by simp, by simp, rfl⟩

theorem ExtendsFor.trans {rt : Runtime} {id : Str} {g1 g2 g3 : Globals}
    (h1 : ExtendsFor rt id g1 g2) (h2 : ExtendsFor rt id g2 g3) : ExtendsFor rt id g1 g3 := by
  obtain ⟨l1, e1, a1, k1⟩ := h1
  obtain ⟨l2, e2, a2, k2⟩ := h2
  refine ⟨l1 ++ l2, ?_, ?_, k2.trans k1⟩
  · rw [e2, e1, List.append_assoc]
  · intro e he
    rcases List.mem_append.mp he with h | h
    · exact a1 e h
    · exact a2 e h

theorem mem_mapSet {β : Type} (m : GoMap β) (k : Str) (v : β) (kv : Str × β)
    (h : kv ∈ mapSet m k v) : kv ∈ m ∨ kv.2 = v := by
  induction m with
  | nil =>
    simp only [mapSet, List.mem_singleton] at h
    exact Or.inr (by rw [h])
  | cons kv0 m ih =>
    obtain ⟨k0, v0⟩ := kv0
    simp only [mapSet] at h
    split_ifs at h with hk
    · rcases List.mem_cons.mp h with h | h
      · exact Or.inr (by rw [h])
      · exact Or.inl (List.mem_cons_of_mem _ h)
    · rcases List.mem_cons.mp h with h | h
      · exact Or.inl (by rw [h]; exact List.mem_cons_self _ _)
      · rcases ih h with h | h
        · exact Or.inl (List.mem_cons_of_mem _ h)
        · exact Or.inr h

theorem parseAttribute_values (rt : Runtime) (g : Globals) (r : Record) (line : Str)
    (hr : valuesNonempty r) : valuesNonempty (parseAttribute rt g r line).2 := by
  simp only [parseAttribute]
  split
  · intro kv hkv
    simp only at hkv
    rcases mem_mapSet _ _ _ kv hkv with h | h
    · apply hr
      revert h
      split_ifs <;> exact id
    · rw [h]
      simp
  · exact hr

theorem flushLine_values (rt : Runtime) (st : ParseState)
    (hrs : ∀ r ∈ st.g.records, valuesNonempty r) (hcur : ∀ r, st.cur = some r → valuesNonempty r) :
    (∀ r ∈ (flushLine rt st).g.records, valuesNonempty r) ∧
    (∀ r, (flushLine rt st).cur = some r → valuesNonempty r) := by
  simp only [flushLine]
  split_ifs with hl
  · have hr : valuesNonempty (st.cur.getD emptyRecord) := by
      cases hcr : st.cur with
      | none =>
        intro kv hkv
        cases hkv
      | some r => exact hcur r hcr
    refine ⟨?_, ?_⟩
    · intro r hr2
      apply hrs
      rw [← parseAttribute_records rt st.g (st.cur.getD emptyRecord) st.logicalLine]
      exact hr2
    · intro r hr2
      simp only [Option.some.injEq] at hr2
      rw [← hr2]
      exact parseAttribute_values rt _ _ _ hr
  · exact ⟨hrs, hcur⟩

theorem closeRecord_values (rt : Runtime) (st : ParseState)
    (hrs : ∀ r ∈ st.g.records, valuesNonempty r) (hcur : ∀ r, st.cur = some r → valuesNonempty r) :
    (∀ r ∈ (closeRecord rt st).g.records, valuesNonempty r) ∧
    (∀ r, (closeRecord rt st).cur = some r → valuesNonempty r) := by
  cases hcr : st.cur with
  | none =>
    simp only [closeRecord, hcr]
    exact ⟨hrs, fun r hr => by cases hr⟩
  | some r =>
    simp only [closeRecord, hcr]
    obtain ⟨_, _, k3, k4⟩ := finalizeRecord_keeps rt st.g r
    refine ⟨?_, fun r2 hr2 => by cases hr2⟩
    intro r2 hr2
    simp only [List.mem_append, List.mem_singleton] at hr2
    rcases hr2 with hr2 | hr2
    · apply hrs
      rw [← k3]
      exact hr2
    · rw [hr2]
      simp only [valuesNonempty, k4]
      exact hcur r hcr

theorem scanLines_values (rt : Runtime) (lines : List Str) (st : ParseState)
    (hrs : ∀ r ∈ st.g.records, valuesNonempty r) (hcur : ∀ r, st.cur = some r → valuesNonempty r) :
    (∀ r ∈ (lines.foldl (scanLine rt) st).g.records, valuesNonempty r) ∧
    (∀ r, (lines.foldl (scanLine rt) st).cur = some r → valuesNonempty r) := by
  induction lines generalizing st with
  | nil => exact ⟨hrs, hcur⟩
  | cons l ls ih =>
    rw [List.foldl_cons]
    apply ih
    · simp only [scanLine]
      split_ifs
      · exact hrs
      · exact (closeRecord_values rt _ (flushLine_values rt st hrs hcur).1
          (flushLine_values rt st hrs hcur).2).1
      · exact (flushLine_values rt st hrs hcur).1
    · simp only [scanLine]
      split_ifs
      · exact hcur
      · exact (closeRecord_values rt _ (flushLine_values rt st hrs hcur).1
          (flushLine_values rt st hrs hcur).2).2
      · exact (flushLine_values rt st hrs hcur).2

/-- Every record that parseLDIF returns holds at least one value under each of
its keys, so the attribute loop of upsertUser finds `vs[0]`. -/
theorem parseLDIF_values (rt : Runtime) (g : Globals) (lines : List Str)
    (hrs : ∀ r ∈ g.records, valuesNonempty r) :
    ∀ r ∈ (parseLDIF rt g lines).records, valuesNonempty r := by
  have h1 := scanLines_values rt lines ⟨g, none, []⟩ hrs (fun r hr => by cases hr)
  have h2 := flushLine_values rt _ h1.1 h1.2
  exact (closeRecord_values rt _ h2.1 h2.2).1
/-! ## C11: the group key of the linking pass and the name ensured in phase 3 -/

/-- What parseAttribute does to the attribute map and to the CN field. -/
theorem parseAttribute_shape (rt : Runtime) (g : Globals) (r : Record) (line : Str) :
    (parseAttribute rt g r line).2 = r ∨
    ∃ tk val, (parseAttribute rt g r line).2.Attributes =
        mapSet r.Attributes tk (attr r.Attributes tk ++ [val]) ∧
      (parseAttribute rt g r line).2.CN = if tk = lit "cn" then val else r.CN := by
  have h1 : lit "dn" ≠ lit "cn" := by decide
  have h2 : lit "uid" ≠ lit "cn" := by decide
  simp only [parseAttribute]
  split
  · rename_i rawKey val rest heq
    generalize (match mapGet g.fieldMap (ToLower rt rawKey) with
      | some mapping =>
        (mapping.Target,
          if (HasPrefix val (lit ":") && mapping.Decode) = true then
            (DecodeString (TrimSpace
              (if HasPrefix val (lit ":") = true then TrimPrefix val (lit ":") else val))).1
          else TrimSpace (if HasPrefix val (lit ":") = true then TrimPrefix val (lit ":") else val))
      | none =>
        (resolveAttributeName rt g rawKey,
          if HasPrefix val (lit ":") = true then
            (DecodeString (TrimSpace
              (if HasPrefix val (lit ":") = true then TrimPrefix val (lit ":") else val))).1
          else TrimSpace (if HasPrefix val (lit ":") = true then TrimPrefix val (lit ":") else val)))
      = tv
    refine Or.inr ⟨tv.1, tv.2, ?_, ?_⟩
    · split_ifs <;> rfl
    · split_ifs <;> simp_all
  · exact Or.inl rfl

theorem parseAttribute_cnIsLast (rt : Runtime) (g : Globals) (r : Record) (line : Str)
    (hr : cnIsLast r) : cnIsLast (parseAttribute rt g r line).2 := by
  rcases parseAttribute_shape rt g r line with h | ⟨tk, val, ha, hc⟩
  · rw [h]
    exact hr
  · simp only [cnIsLast, ha, hc]
    by_cases htk : tk = lit "cn"
    · rw [if_pos htk, htk, attr_mapSet_same]
      simp
    · rw [if_neg htk]
      have : attr (mapSet r.Attributes tk (attr r.Attributes tk ++ [val])) (lit "cn") =
          attr r.Attributes (lit "cn") := by
        simp only [attr]
        rw [mapGet_mapSet_other _ _ _ _ (fun e => htk e.symm)]
      rw [this]
      exact hr

theorem classify_fold_CN (rt : Runtime) (cs : List Str) (r : Record) :
    (cs.foldl (classify rt) r).CN = r.CN := by
  induction cs generalizing r with
  | nil => rfl
  | cons c cs ih =>
    rw [List.foldl_cons, ih]
    simp only [classify]
    split_ifs <;> rfl

theorem finalizeRecord_cnIsLast (rt : Runtime) (g : Globals) (r : Record)
    (hr : cnIsLast r) : cnIsLast (finalizeRecord rt g r).2 := by
  have ha := (finalizeRecord_keeps rt g r).2.2.2
  have hc : (finalizeRecord rt g r).2.CN = r.CN := by
    rw [finalizeRecord_snd]
    split_ifs
    · exact classify_fold_CN rt _ r
    · exact classify_fold_CN rt _ r
  simp only [cnIsLast, ha, hc]
  exact hr

theorem flushLine_cnIsLast (rt : Runtime) (st : ParseState)
    (hrs : ∀ r ∈ st.g.records, cnIsLast r) (hcur : ∀ r, st.cur = some r → cnIsLast r) :
    (∀ r ∈ (flushLine rt st).g.records, cnIsLast r) ∧
    (∀ r, (flushLine rt st).cur = some r → cnIsLast r) := by
  simp only [flushLine]
  split_ifs with hl
  · have hr : cnIsLast (st.cur.getD emptyRecord) := by
      cases hcr : st.cur with
      | none => rfl
      | some r => exact hcur r hcr
    refine ⟨?_, ?_⟩
    · intro r hr2
      apply hrs
      rw [← parseAttribute_records rt st.g (st.cur.getD emptyRecord) st.logicalLine]
      exact hr2
    · intro r hr2
      simp only [Option.some.injEq] at hr2
      rw [← hr2]
      exact parseAttribute_cnIsLast rt _ _ _ hr
  · exact ⟨hrs, hcur⟩

theorem closeRecord_cnIsLast (rt : Runtime) (st : ParseState)
    (hrs : ∀ r ∈ st.g.records, cnIsLast r) (hcur : ∀ r, st.cur = some r → cnIsLast r) :
    (∀ r ∈ (closeRecord rt st).g.records, cnIsLast r) ∧
    (∀ r, (closeRecord rt st).cur = some r → cnIsLast r) := by
  cases hcr : st.cur with
  | none =>
    simp only [closeRecord, hcr]
    exact ⟨hrs, fun r hr => by cases hr⟩
  | some r =>
    simp only [closeRecord, hcr]
    refine ⟨?_, fun r2 hr2 => by cases hr2⟩
    intro r2 hr2
    simp only [List.mem_append, List.mem_singleton] at hr2
    rcases hr2 with hr2 | hr2
    · apply hrs
      rw [← (finalizeRecord_keeps rt st.g r).2.2.1]
      exact hr2
    · rw [hr2]
      exact finalizeRecord_cnIsLast rt st.g r (hcur r hcr)

theorem scanLines_cnIsLast (rt : Runtime) (lines : List Str) (st : ParseState)
    (hrs : ∀ r ∈ st.g.records, cnIsLast r) (hcur : ∀ r, st.cur = some r → cnIsLast r) :
    (∀ r ∈ (lines.foldl (scanLine rt) st).g.records, cnIsLast r) ∧
    (∀ r, (lines.foldl (scanLine rt) st).cur = some r → cnIsLast r) := by
  induction lines generalizing st with
  | nil => exact ⟨hrs, hcur⟩
  | cons l ls ih =>
    rw [List.foldl_cons]
    apply ih
    · simp only [scanLine]
      split_ifs
      · exact hrs
      · exact (closeRecord_cnIsLast rt _ (flushLine_cnIsLast rt st hrs hcur).1
          (flushLine_cnIsLast rt st hrs hcur).2).1
      · exact (flushLine_cnIsLast rt st hrs hcur).1
    · simp only [scanLine]
      split_ifs
      · exact hcur
      · exact (closeRecord_cnIsLast rt _ (flushLine_cnIsLast rt st hrs hcur).1
          (flushLine_cnIsLast rt st hrs hcur).2).2
      · exact (flushLine_cnIsLast rt st hrs hcur).2

theorem getFirst_eq_head (m : GoMap (List Str)) (k : Str) :
    getFirst m k = ((attr m k).head?).getD [] := by
  simp only [getFirst, attr]
  cases mapGet m k with
  | none => rfl
  | some vs =>
    cases vs with
    | nil => rfl
    | cons v vs => rfl

/-- What ensureG does to the group-ID map: nothing, or one new entry under the
lower-cased name it was called with. -/
theorem ensureG_groupNameToID (rt : Runtime) (gw : Gateway) (g : Globals) (n : Str) :
    (ensureG rt gw g n).2.groupNameToID = g.groupNameToID ∨
    ∃ id, (ensureG rt gw g n).2.groupNameToID = mapSet g.groupNameToID (ToLower rt n) id := by
  simp only [ensureG]
  cases mapGet g.groupNameToID (ToLower rt n) with
  | some _ => exact Or.inl rfl
  | none =>
    simp only
    split_ifs
    · left
      rw [talk_snd]
    · split
      · right
        exact ⟨_, by rw [talk_snd]⟩
      · left
        rw [talk_snd]

/-- C11 fails on the program.  The injection pass ensures the group of a
record under the lower-cased CN field, and parseAttribute overwrites that field
with every value filed under `cn`, so it is the last such value; the linking
pass takes its key from getFirst, the first value under `cn`.  The two keys
agree for a parsed record with one value under `cn`.  For the export whose
group record has `cn: staff` and then `cn: employees`, phase 3 ensures the
group `employees` and phase 4 calls link for the group `staff`, which is not in
the group-ID map: no membership request is sent and no link is counted, while
the same export without the second name sends the request and counts one
link. -/
theorem group_key_first_not_last (rt : Runtime) (gw : Gateway) (g : Globals) (lines : List Str)
    (hrs : ∀ r ∈ g.records, cnIsLast r) :
    (∀ r ∈ (parseLDIF rt g lines).records,
      r.CN = ((attr r.Attributes (lit "cn")).getLast?).getD [] ∧
      getFirst r.Attributes (lit "cn") = ((attr r.Attributes (lit "cn")).head?).getD []) ∧
    (∀ r ∈ (parseLDIF rt g lines).records, ∀ v, attr r.Attributes (lit "cn") = [v] →
      ToLower rt (getFirst r.Attributes (lit "cn")) = ToLower rt r.CN) ∧
    (∀ (acc : Globals × Counters) (r : Record),
      r.IsUser = false → r.IsGroup = true → r.CN ≠ [] →
      ∃ acc1, injectRecord rt gw acc r = some acc1 ∧
        (acc1.1.groupNameToID = acc.1.groupNameToID ∨
          ∃ id, acc1.1.groupNameToID = mapSet acc.1.groupNameToID (ToLower rt r.CN) id)) ∧
    (parseLDIF asciiRuntime initGlobals twoNameLines).records.map
        (fun r => (r.IsGroup, r.CN, getFirst r.Attributes (lit "cn"))) =
      [(false, lit "Jane Doe", lit "Jane Doe"), (true, lit "employees", lit "staff")] ∧
    (injectAndLink asciiRuntime storeGateway
        (parseLDIF asciiRuntime initGlobals twoNameLines)).map outcome =
      some ⟨[(lit "employees", 7)], [(lit "jane.doe", lit "staff")], [], ⟨1, 1, 0⟩⟩ ∧
    (injectAndLink asciiRuntime storeGateway
        (parseLDIF asciiRuntime initGlobals janeLines)).map outcome =
      some ⟨[(lit "staff", 7)], [(lit "jane.doe", lit "staff")],
        [Event.query (qAddUserToGroup (lit "\"jane.doe\"") 7)], ⟨1, 1, 1⟩⟩ := by
  have hinv : ∀ r ∈ (parseLDIF rt g lines).records, cnIsLast r := by
    have h1 := scanLines_cnIsLast rt lines ⟨g, none, []⟩ hrs (fun r hr => by cases hr)
    have h2 := flushLine_cnIsLast rt _ h1.1 h1.2
    exact (closeRecord_cnIsLast rt _ h2.1 h2.2).1
  refine ⟨?_, ?_, ?_, by decide, by decide, by decide⟩
  · intro r hr
    exact ⟨(hinv r hr).symm, getFirst_eq_head _ _⟩
  · intro r hr v hv
    have h := hinv r hr
    rw [cnIsLast, hv] at h
    rw [getFirst_eq_head, hv, ← h]
    rfl
  · intro acc r hu hg hcn
    have hc : (r.IsGroup && decide (r.CN ≠ [])) = true := by simp [hg, hcn]
    simp only [injectRecord, hu, hc, Bool.false_eq_true, if_false, if_true]
    rcases ensureG_groupNameToID rt gw acc.1 r.CN with h | h
    · split_ifs
      · exact ⟨_, rfl, Or.inl h⟩
      · exact ⟨_, rfl, Or.inl h⟩
    · split_ifs
      · exact ⟨_, rfl, Or.inr h⟩
      · exact ⟨_, rfl, Or.inr h⟩

/-- C11 at the export whose group record has two names. -/
theorem group_key_first_not_last_witness :
    (∀ r ∈ initGlobals.records, cnIsLast r) ∧
    (∀ r ∈ (parseLDIF asciiRuntime initGlobals twoNameLines).records,
      r.CN = ((attr r.Attributes (lit "cn")).getLast?).getD [] ∧
      getFirst r.Attributes (lit "cn") = ((attr r.Attributes (lit "cn")).head?).getD []) :=
  ⟨fun r hr => absurd hr (List.not_mem_nil r),
    (group_key_first_not_last asciiRuntime storeGateway initGlobals twoNameLines
      (fun r hr => absurd hr (List.not_mem_nil r))).1⟩

end LdifToLldap
